import Mathlib

/-!
Verification of the backend/lowering stage (src/backend.rs): translation of a
typed IR with tuples, dynamic arrays and payload-carrying enums into Java-like
source text.  Definitions are shallow embeddings of the Rust source; symbols
keep their source names where Lean permits.  Interned raw symbols (`RawSym`)
are modelled as the strings they resolve to, and `RawPath` as the list of path
components; the interner's `raw`/`resolve_raw` pair is then the identity, which
is faithful because the source only ever round-trips through it.
-/

/-- Modelled from the spec: binary operators of the IR (`BinOp` lives in the
missing `term.rs`); only the operator tags, their rendering `repr` and their
`ty` classification (comparison / arithmetic / logic) are needed here. -/
inductive BinOp where
  | add | sub | mul | div
  | eq | neq | gt | lt | ge | le
  | land | lor
deriving DecidableEq, Repr

inductive BinOpType where
  | Comp | Arith | Logic
deriving DecidableEq, Repr

/-- Modelled from the spec: rendering of a binary operator in the target text. -/
def BinOp.repr : BinOp → String
  | .add => "+"
  | .sub => "-"
  | .mul => "*"
  | .div => "/"
  | .eq => "=="
  | .neq => "!="
  | .gt => ">"
  | .lt => "<"
  | .ge => ">="
  | .le => "<="
  | .land => "&&"
  | .lor => "||"

/-- Modelled from the spec: classification of a binary operator, used by
`JTerm::ty` (comparisons and logic yield `Bool`, arithmetic keeps the
left operand's type). -/
def BinOp.ty : BinOp → BinOpType
  | .add | .sub | .mul | .div => .Arith
  | .eq | .neq | .gt | .lt | .ge | .le => .Comp
  | .land | .lor => .Logic

/-- Target-level variable handle: `JVar(u64, bool)`; the bool is whether it is
public, so mangling should be skipped. -/
structure JVar where
  id : Nat
  pub : Bool
deriving DecidableEq, Repr

/-- Target-level function handle `JFnId(u64)`. -/
abbrev JFnId := Nat

/-- Target-level class handle `JClass(u64)`. -/
abbrev JClass := Nat

/-- Target-level block label `JBlock(u64)`. -/
abbrev JBlock := Nat

/-- Literals of the target AST (`JLit`); the carriers of `Int`/`Long` are
mathematical integers, with wrapping made explicit where the source casts. -/
inductive JLit where
  | int (i : Int)
  | long (i : Int)
  | str (s : String)
  | bool (b : Bool)
deriving DecidableEq, Repr

/-- Property selector (`Prop` in the source; renamed because `Prop` is a Lean
sort): either a resolved variable or a raw symbol. -/
inductive JProp where
  | var (v : JVar)
  | raw (s : String)
deriving DecidableEq, Repr

/-- Target types (`JTy`). -/
inductive JTy where
  | i32
  | i64
  | bool
  | string
  | classT (c : JClass)
  | array (t : JTy)
deriving DecidableEq, Repr

/-- `JTy::primitive`. -/
def JTy.primitive : JTy → Bool
  | .i32 => true
  | .i64 => true
  | .bool => true
  | .string => false
  | .classT _ => false
  | .array _ => false

mutual
/-- Target terms (`JTerm`). -/
inductive JTerm where
  | var (v : JVar) (t : JTy)
  | lit (l : JLit)
  | call (o : Option JTerm) (f : JFnId) (a : List JTerm) (t : JTy)
  | prop (o : JTerm) (p : JProp) (t : JTy)
  | binop (op : BinOp) (a : JTerm) (b : JTerm)
  | variant (c : JClass) (s : String)
  | array (v : List JTerm) (t : JTy)
  | arrayNew (len : JTerm) (t : JTy)
  | classNew (c : JClass) (a : List JTerm)
  | index (arr : JTerm) (i : JTerm) (t : JTy)
  | not (x : JTerm)
  | null (t : JTy)
  | this (c : JClass)
  | inlineJava (s : String) (t : JTy)
deriving Repr
end

/-- L-values (`JLVal`): the assignable subset of terms. -/
inductive JLVal where
  | var (v : JVar)
  | idx (l : JLVal) (i : JTerm)
  | prop (a : JTerm) (p : JProp)
deriving Repr

/-- Target statements (`JStmt`). -/
inductive JStmt where
  | letS (n : String) (t : JTy) (v : JVar) (x : Option JTerm)
  | set (l : JLVal) (op : Option BinOp) (x : JTerm)
  | term (x : JTerm)
  | ifS (cond : JTerm) (a : List JStmt) (b : List JStmt)
  | switch (k : JBlock) (x : JTerm) (branches : List (String × List JStmt))
      (default : List JStmt)
  | whileS (k : JBlock) (cond : JTerm) (body : List JStmt)
  | rangeFor (k : JBlock) (n : String) (v : JVar) (a : JTerm) (b : JTerm)
      (body : List JStmt)
  | continueS (k : JBlock)
  | breakS (k : JBlock)
  | ret (f : JFnId) (v : List JTerm)
  | multiCall (o : Option JTerm) (f : JFnId) (a : List JTerm)
      (rets : List (String × JVar × JTy))
  | inlineJava (s : String)
deriving Repr

/-- `JTerm::to_lval`: conversion of a term to an l-value; fails (`None`) for
anything that is not a variable, index or property access. -/
def JTerm.to_lval : JTerm → Option JLVal
  | .var v _ => some (JLVal.var v)
  | .index a b _ => (a.to_lval).map fun l => JLVal.idx l b
  | .prop a b _ => some (JLVal.prop a b)
  | _ => none

/-- Multi-value shape helper (`MaybeList<T>`): `One(T) | Tuple(Vec<T>)`. -/
inductive MaybeList (α : Type) where
  | one (x : α)
  | tuple (v : List α)
deriving Repr

/-- `MaybeList::to_vec`. -/
def MaybeList.to_vec {α : Type} : MaybeList α → List α
  | .one x => [x]
  | .tuple v => v

/-- `MaybeList::len`. -/
def MaybeList.len {α : Type} : MaybeList α → Nat
  | .one _ => 1
  | .tuple v => v.length

/-- `MaybeList::one`, which panics unless the length is exactly 1; the panic is
modelled as `none`. -/
def MaybeList.one? {α : Type} : MaybeList α → Option α
  | .one x => some x
  | .tuple [x] => some x
  | .tuple _ => none

/-- `MaybeList::map`. -/
def MaybeList.mapM1 {α β : Type} (f : α → β) : MaybeList α → MaybeList β
  | .one x => .one (f x)
  | .tuple v => .tuple (v.map f)

/-- `MaybeList::empty`: the empty `Tuple`, representing a unit/void result. -/
def MaybeList.empty {α : Type} : MaybeList α := .tuple []

abbrev JTys := MaybeList JTy
abbrev JTerms := MaybeList JTerm
abbrev JVars := MaybeList JVar

theorem MaybeList.len_to_vec {α : Type} (m : MaybeList α) :
    m.to_vec.length = m.len := by
  cases m <;> rfl

/-- `JTerm::ty`: the target type of a term. -/
def JTerm.ty : JTerm → JTy
  | .var _ t => t
  | .null t => t
  | .this c => .classT c
  | .lit (.int _) => .i32
  | .lit (.long _) => .i64
  | .lit (.str _) => .string
  | .lit (.bool _) => .bool
  | .not _ => .bool
  | .call _ _ _ t => t
  | .prop _ _ t => t
  | .inlineJava _ t => t
  | .array _ t => t
  | .arrayNew _ t => t
  | .classNew c _ => .classT c
  | .index _ _ t => t
  | .binop op a _ =>
    match op.ty with
    | .Comp => .bool
    | .Arith => a.ty
    | .Logic => .bool
  | .variant c _ => .classT c

/-- `JTerm::simple`: whether a term may be duplicated freely. -/
def JTerm.simple : JTerm → Bool
  | .var _ _ | .variant _ _ | .lit _ | .null _ | .this _ => true
  | _ => false

/-- Modelled from the spec: IR types (`Type` in the missing `term.rs`):
scalars, unit, classes, tuples and arrays.  Named `Ty` because `Type` is a
Lean sort. -/
inductive Ty where
  | i32
  | i64
  | bool
  | str
  | unit
  | classT (c : Nat)
  | tuple (v : List Ty)
  | array (t : Ty)
deriving Repr

mutual
/-- `Type::lower`: maps an IR type to a `JTys` shape.  The context is
abstracted to the two lookups the source performs: `env` is
`cxt.class(c).unwrap()` and `wr` is `cxt.enum_wrappers.get`. -/
def Ty.lower (env : Nat → JClass) (wr : JClass → Option JClass) : Ty → JTys
  | .i32 => .one .i32
  | .i64 => .one .i64
  | .bool => .one .bool
  | .str => .one .string
  | .unit => MaybeList.empty
  | .classT c =>
    match wr (env c) with
    | some w => .one (.classT w)
    | none => .one (.classT (env c))
  | .tuple v => .tuple (Ty.lowerList env wr v)
  | .array t =>
    .tuple (((Ty.lower env wr t).to_vec.map JTy.array) ++ [JTy.i32])

/-- Flattening of a list of IR types: `v.iter().flat_map(|x| x.lower(cxt))`. -/
def Ty.lowerList (env : Nat → JClass) (wr : JClass → Option JClass) :
    List Ty → List JTy
  | [] => []
  | t :: ts => (Ty.lower env wr t).to_vec ++ Ty.lowerList env wr ts
end

/-- Modelled from the spec: IR literals (`Literal` in the missing `term.rs`):
a 64-bit integer payload, a string, or a bool. -/
inductive Literal where
  | int (i : Int)
  | str (s : String)
  | bool (b : Bool)
deriving DecidableEq, Repr

/-- Two's-complement truncation of an integer to 32 bits (`as i32`). -/
def wrap32 (z : Int) : Int := (z + 2 ^ 31) % 2 ^ 32 - 2 ^ 31

/-- Two's-complement truncation of an integer to 64 bits. -/
def wrap64 (z : Int) : Int := (z + 2 ^ 63) % 2 ^ 64 - 2 ^ 63

/-- The `Term::Lit` case of `Term::lower`: an `Int` literal becomes a 32-bit
literal under declared type `I32` (Rust `*i as i32`, two's-complement
truncation) and keeps its value under `I64`; any other declared type for an
integer literal is `unreachable!()` (modelled as `none`).  String and bool
literals ignore the declared type. -/
def lowerLit : Literal → Ty → Option JTerm
  | .int i, .i32 => some (.lit (.int (wrap32 i)))
  | .int i, .i64 => some (.lit (.long i))
  | .int _, _ => none
  | .str s, _ => some (.lit (.str s))
  | .bool b, _ => some (.lit (.bool b))

/-- The extern-return fixup of `declare_p2` (backend.rs lines 164-184): a
lowered extern return of length at least 2 panics with "Extern function can't
return tuple" (modelled as `none`) unless it has length exactly 2 with an
`Array` first component, in which case the recorded shape becomes that single
`Array` type (`swap_remove(0)`). -/
def externRetFix (ret : JTys) : Option JTys :=
  if 1 < ret.len then
    if ret.len = 2 then
      match ret.to_vec with
      | JTy.array u :: _ => some (MaybeList.one (JTy.array u))
      | _ => none
    else none
  else some ret

/-! Well-formedness of flattened lowered type lists: every run of `Array`
components produced by `Type::lower` is immediately followed by its `I32`
length slot.  This is the invariant behind the `(Array, length)` reading of a
two-component extern return. -/

mutual
/-- A lowered type list is chunk-shaped: any maximal run of `array` components
is immediately followed by an `i32` length slot. -/
def arrOk : List JTy → Bool
  | [] => true
  | .i32 :: rest => arrOk rest
  | .i64 :: rest => arrOk rest
  | .bool :: rest => arrOk rest
  | .string :: rest => arrOk rest
  | .classT _ :: rest => arrOk rest
  | .array _ :: rest => arrAfter rest

/-- Inside a run of `array` components: more arrays may follow, and the run
must terminate with an `i32` length slot. -/
def arrAfter : List JTy → Bool
  | [] => false
  | .array _ :: rest => arrAfter rest
  | .i32 :: rest => arrOk rest
  | .i64 :: _ => false
  | .bool :: _ => false
  | .string :: _ => false
  | .classT _ :: _ => false
end

theorem arrOk_arrAfter_append (a b : List JTy) :
    (arrOk a = true → arrOk b = true → arrOk (a ++ b) = true) ∧
    (arrAfter a = true → arrOk b = true → arrAfter (a ++ b) = true) := by
  induction a with
  | nil =>
    exact ⟨fun _ hb => by simpa using hb, fun h _ => by simp [arrAfter] at h⟩
  | cons x rest ih =>
    cases x with
    | i32 => exact ⟨ih.1, ih.1⟩
    | i64 => exact ⟨ih.1, fun h _ => nomatch h⟩
    | bool => exact ⟨ih.1, fun h _ => nomatch h⟩
    | string => exact ⟨ih.1, fun h _ => nomatch h⟩
    | classT c => exact ⟨ih.1, fun h _ => nomatch h⟩
    | array t => exact ⟨ih.2, ih.2⟩

theorem arrAfter_mapArray (l : List JTy) (rest : List JTy) :
    arrAfter (l.map JTy.array ++ JTy.i32 :: rest) = arrOk rest := by
  induction l with
  | nil => rfl
  | cons x xs ih => simpa [arrAfter] using ih

theorem arrOk_mapArray (l : List JTy) (rest : List JTy) :
    arrOk (l.map JTy.array ++ JTy.i32 :: rest) = arrOk rest := by
  cases l with
  | nil => rfl
  | cons x xs => simpa [arrOk] using arrAfter_mapArray xs rest

mutual
theorem arrOk_lower (env : Nat → JClass) (wr : JClass → Option JClass) :
    ∀ t : Ty, arrOk (Ty.lower env wr t).to_vec = true
  | .i32 => rfl
  | .i64 => rfl
  | .bool => rfl
  | .str => rfl
  | .unit => rfl
  | .classT c => by
    cases h : wr (env c) <;>
      simp [Ty.lower, h, MaybeList.to_vec, arrOk]
  | .tuple v => by
    simpa [Ty.lower, MaybeList.to_vec] using arrOk_lowerList env wr v
  | .array t => by
    have := arrOk_mapArray (Ty.lower env wr t).to_vec []
    simpa [Ty.lower, MaybeList.to_vec] using this

theorem arrOk_lowerList (env : Nat → JClass) (wr : JClass → Option JClass) :
    ∀ ts : List Ty, arrOk (Ty.lowerList env wr ts) = true
  | [] => rfl
  | t :: ts => by
    have h1 := arrOk_lower env wr t
    have h2 := arrOk_lowerList env wr ts
    simpa [Ty.lowerList] using
      (arrOk_arrAfter_append (Ty.lower env wr t).to_vec
        (Ty.lowerList env wr ts)).1 h1 h2
end

theorem arrOk_pair {u x : JTy} (h : arrOk [JTy.array u, x] = true) :
    x = JTy.i32 := by
  cases x with
  | i32 => rfl
  | i64 => simp [arrOk, arrAfter] at h
  | bool => simp [arrOk, arrAfter] at h
  | string => simp [arrOk, arrAfter] at h
  | classT c => simp [arrOk, arrAfter] at h
  | array t => simp [arrOk, arrAfter] at h

/-- C1: `declare_p2` fatally aborts with "Extern function can't return tuple"
if and only if an extern function's declared return type lowers to a tuple of
two or more components that is not exactly an `(Array, length)` pair; when the
lowered return is exactly `(Array, length)`, the recorded return shape becomes
the single `Array` type. -/
theorem extern_ret_tuple_abort (env : Nat → JClass) (wr : JClass → Option JClass)
    (t : Ty) :
    (externRetFix (Ty.lower env wr t) = none ↔
      2 ≤ (Ty.lower env wr t).len ∧
        ∀ u : JTy, (Ty.lower env wr t).to_vec ≠ [JTy.array u, JTy.i32]) ∧
    ∀ u : JTy, (Ty.lower env wr t).to_vec = [JTy.array u, JTy.i32] →
      externRetFix (Ty.lower env wr t) = some (MaybeList.one (JTy.array u)) := by
  have hok : arrOk (Ty.lower env wr t).to_vec = true := arrOk_lower env wr t
  set m := Ty.lower env wr t with hm
  have hlen : m.to_vec.length = m.len := MaybeList.len_to_vec m
  by_cases h1 : 1 < m.len
  · by_cases h2 : m.len = 2
    · obtain ⟨a, b, hab⟩ : ∃ a b, m.to_vec = [a, b] :=
        List.length_eq_two.mp (by omega)
      rcases a with _ | _ | _ | _ | c | u
      rotate_right 1
      · have hb : b = JTy.i32 := arrOk_pair (hab ▸ hok)
        subst hb
        have hv : externRetFix m = some (MaybeList.one (JTy.array u)) := by
          simp only [externRetFix, if_pos h1, if_pos h2, hab]
        refine ⟨⟨fun h => Option.noConfusion (hv.symm.trans h), fun h => absurd hab (h.2 u)⟩, ?_⟩
        intro u' hu'
        rw [hab] at hu'
        simp only [List.cons.injEq, JTy.array.injEq, and_true] at hu'
        rw [hv, hu']
      all_goals {
        have hv : externRetFix m = none := by
          simp only [externRetFix, if_pos h1, if_pos h2, hab]
        constructor
        · constructor
          · intro _
            refine ⟨by omega, fun u hu => ?_⟩
            rw [hab] at hu
            simp at hu
          · intro _
            exact hv
        · intro u hu
          rw [hab] at hu
          simp at hu }
    · have hv : externRetFix m = none := by
        simp only [externRetFix, if_pos h1, if_neg h2]
      constructor
      · constructor
        · intro _
          refine ⟨by omega, fun u hu => ?_⟩
          have : m.to_vec.length = 2 := by rw [hu]; rfl
          omega
        · intro _
          exact hv
      · intro u hu
        have : m.to_vec.length = 2 := by rw [hu]; rfl
        omega
  · have hv : externRetFix m = some m := by
      simp only [externRetFix, if_neg h1]
    refine ⟨⟨fun h => Option.noConfusion (hv.symm.trans h), fun h => absurd h.1 (by omega)⟩, ?_⟩
    intro u hu
    have : m.to_vec.length = 2 := by rw [hu]; rfl
    omega

theorem extern_ret_tuple_abort_witness :
    externRetFix (Ty.lower (fun c => c) (fun _ => none) (Ty.array Ty.i32)) =
      some (MaybeList.one (JTy.array JTy.i32)) :=
  (extern_ret_tuple_abort (fun c => c) (fun _ => none) (Ty.array Ty.i32)).2
    JTy.i32 rfl

/-- C10: lowering an integer literal declared `I32` produces the literal
reduced modulo 2^32 into two's-complement range (never rejected), an `I64`
literal keeps its full value, and a non-integer declared type is a fatal
abort. -/
theorem int_literal_truncation (i : Int) :
    (lowerLit (.int i) Ty.i32 = some (.lit (.int (wrap32 i))) ∧
      -2 ^ 31 ≤ wrap32 i ∧ wrap32 i < 2 ^ 31 ∧ wrap32 i % 2 ^ 32 = i % 2 ^ 32) ∧
    lowerLit (.int i) Ty.i64 = some (.lit (.long i)) ∧
    ∀ t : Ty, t ≠ Ty.i32 → t ≠ Ty.i64 → lowerLit (.int i) t = none := by
  refine ⟨⟨rfl, ?_, ?_, ?_⟩, rfl, ?_⟩
  · unfold wrap32; omega
  · unfold wrap32; omega
  · unfold wrap32; omega
  · intro t h32 h64
    cases t with
    | i32 => exact absurd rfl h32
    | i64 => exact absurd rfl h64
    | bool => rfl
    | str => rfl
    | unit => rfl
    | classT c => rfl
    | tuple v => rfl
    | array t => rfl

theorem int_literal_truncation_witness :
    lowerLit (.int 4294967299) Ty.bool = none :=
  (int_literal_truncation 4294967299).2.2 Ty.bool
    (fun h => Ty.noConfusion h) (fun h => Ty.noConfusion h)

/-! Break/continue lowering (`Cxt::block_label` and the `Term::Break` /
`Term::Continue` cases of `Term::lower`).  `cxt.blocks` is the stack of
`(optional loop label, starting statement count)` pairs pushed by
`push_loop` / `push_block`; the innermost entry is the last. -/

/-- `Cxt::block_label`: the innermost enclosing loop label, found by scanning
the block stack in reverse for the first entry that carries a label. -/
def block_label (blocks : List (Option JBlock × Nat)) : Option JBlock :=
  blocks.reverse.findSome? fun x => x.1

/-- The `Term::Break` case of `Term::lower`: panics ("'break' outside of
loop", modelled as `none`) when `block_label` finds nothing, otherwise pushes
`JStmt::Break` with that label and yields the empty term list. -/
def lowerBreakTerm (blocks : List (Option JBlock × Nat)) :
    Option (List JStmt × JTerms) :=
  match block_label blocks with
  | some k => some ([JStmt.breakS k], MaybeList.empty)
  | none => none

/-- The `Term::Continue` case of `Term::lower`, analogous to `Break`. -/
def lowerContinueTerm (blocks : List (Option JBlock × Nat)) :
    Option (List JStmt × JTerms) :=
  match block_label blocks with
  | some k => some ([JStmt.continueS k], MaybeList.empty)
  | none => none

theorem block_label_none_iff (blocks : List (Option JBlock × Nat)) :
    block_label blocks = none ↔ ∀ b ∈ blocks, b.1 = none := by
  unfold block_label
  rw [List.findSome?_eq_none_iff]
  constructor
  · intro h b hb
    exact h b (List.mem_reverse.mpr hb)
  · intro h b hb
    exact h b (List.mem_reverse.mp hb)

theorem block_label_innermost (pre post : List (Option JBlock × Nat))
    (k : JBlock) (n : Nat) (hpost : ∀ b ∈ post, b.1 = none) :
    block_label (pre ++ (some k, n) :: post) = some k := by
  unfold block_label
  rw [List.reverse_append, List.reverse_cons, List.append_assoc,
    List.findSome?_append, List.findSome?_append]
  have h1 : post.reverse.findSome? (fun x => x.1) = none := by
    rw [List.findSome?_eq_none_iff]
    intro b hb
    exact hpost b (List.mem_reverse.mp hb)
  rw [h1]
  rfl

/-- C7: lowering `break`/`continue` fatally aborts exactly when no enclosing
pushed block carries a loop label; otherwise it emits a `Break`/`Continue`
statement targeting the innermost enclosing loop label, skipping intervening
non-loop blocks. -/
theorem break_continue_targeting (blocks : List (Option JBlock × Nat)) :
    (lowerBreakTerm blocks = none ↔ ∀ b ∈ blocks, b.1 = none) ∧
    (lowerContinueTerm blocks = none ↔ ∀ b ∈ blocks, b.1 = none) ∧
    ∀ (pre post : List (Option JBlock × Nat)) (k : JBlock) (n : Nat),
      blocks = pre ++ (some k, n) :: post → (∀ b ∈ post, b.1 = none) →
      lowerBreakTerm blocks = some ([JStmt.breakS k], MaybeList.empty) ∧
      lowerContinueTerm blocks = some ([JStmt.continueS k], MaybeList.empty) := by
  refine ⟨?_, ?_, ?_⟩
  · unfold lowerBreakTerm
    rw [← block_label_none_iff]
    cases block_label blocks <;> simp
  · unfold lowerContinueTerm
    rw [← block_label_none_iff]
    cases block_label blocks <;> simp
  · intro pre post k n hb hpost
    have := block_label_innermost pre post k n hpost
    rw [← hb] at this
    unfold lowerBreakTerm lowerContinueTerm
    rw [this]
    exact ⟨rfl, rfl⟩

theorem break_continue_targeting_witness :
    lowerBreakTerm [(some 3, 0), (none, 1)] =
        some ([JStmt.breakS 3], MaybeList.empty) ∧
      lowerContinueTerm [(some 3, 0), (none, 1)] =
        some ([JStmt.continueS 3], MaybeList.empty) :=
  (break_continue_targeting [(some 3, 0), (none, 1)]).2.2 [] [(none, 1)] 3 0
    rfl (by decide)

/-! The emitter (`Gen` and the `gen` functions): target AST to source text.
`Gen::names` is a `HashMap<u64, (RawPath, bool)>` that the emitter only ever
reads through point lookups and extends through point inserts, so it is
modelled as the lookup function itself; `bindings.resolve_path` joins a
qualified path with dots. -/

/-- Emitter state (`Gen`): the name table and the indentation counter. -/
structure Gen where
  names : Nat → List String × Bool
  indent : Nat

/-- Resolution of a `RawPath` to the dotted qualified name
(`bindings.resolve_path`; modelled from the spec's "qualified source path"). -/
def resolvePath (p : List String) : String := String.intercalate "." p

def Gen.push (g : Gen) : Gen := { g with indent := g.indent + 1 }

def Gen.pop (g : Gen) : Gen := { g with indent := g.indent - 1 }

/-- `Gen::indent`: at most five tabs, since deeper indentation stops helping. -/
def Gen.indentStr (g : Gen) : String := "\t\t\t\t\t".take (min g.indent 5)

/-- `Gen::name_str`: resolve the path and append the `$<id>` mangle suffix when
the mangle flag is set. -/
def Gen.name_str (g : Gen) (v : JVar) : String :=
  match g.names v.id with
  | (i, b) =>
    let s := resolvePath i
    if b then s ++ "$" ++ toString v.id else s

/-- `Gen::fn_str`. -/
def Gen.fn_str (g : Gen) (f : JFnId) : String :=
  match g.names f with
  | (i, b) =>
    let s := resolvePath i
    if b then s ++ "$" ++ toString f else s

/-- `Gen::class_str`. -/
def Gen.class_str (g : Gen) (c : JClass) : String :=
  match g.names c with
  | (i, b) =>
    let s := resolvePath i
    if b then s ++ "$" ++ toString c else s

/-- `cxt.names.insert(k, v)`. -/
def Gen.insert (g : Gen) (k : Nat) (v : List String × Bool) : Gen :=
  { g with names := fun k' => if k' = k then v else g.names k' }

/-- `Prop::gen`. -/
def JProp.gen (p : JProp) (g : Gen) : String :=
  match p with
  | .var v => g.name_str v
  | .raw s => s

/-- `JTy::gen`. -/
def genTy : JTy → Gen → String
  | .i32, _ => "int"
  | .i64, _ => "long"
  | .bool, _ => "boolean"
  | .string, _ => "String"
  | .classT c, g => g.class_str c
  | .array t, g => genTy t g ++ "[]"

/-- `JTy::null`: the per-type zero value used for null-initialized lets. -/
def JTy.null : JTy → String
  | .i32 => "0"
  | .i64 => "0L"
  | .bool => "false"
  | .string => "null"
  | .classT _ => "null"
  | .array _ => "null"

/-- Whether a term is a null literal (the `matches!(x, JTerm::Null(_))` guards
of the `==`/`!=` special case). -/
def JTerm.isNullT : JTerm → Bool
  | .null _ => true
  | _ => false

mutual
/-- `JTerm::gen`: rendering of a term.  The `unreachable!()` branches of the
source (array and array-new terms whose recorded type is not an `Array` type,
which lowering never produces) render as the empty string here. -/
def genTerm : JTerm → Gen → String
  | .not x, g => "!(" ++ genTerm x g ++ ")"
  | .var v _, g => g.name_str v
  | .null _, _ => "null"
  | .this _, _ => "this"
  | .lit (.int i), _ => toString i
  | .lit (.long i), _ => toString i ++ "L"
  | .lit (.str s), _ => "\"" ++ s ++ "\""
  | .lit (.bool b), _ => if b then "true" else "false"
  | .call none f a _, g => g.fn_str f ++ "(" ++ genTermArgs a g ++ ")"
  | .call (some obj) f a _, g =>
    "(" ++ genTerm obj g ++ ")." ++ g.fn_str f ++ "(" ++ genTermArgs a g ++ ")"
  | .prop obj p _, g => genTerm obj g ++ "." ++ p.gen g
  | .binop op a b, g =>
    if (op == BinOp.eq || op == BinOp.neq) && !a.ty.primitive
        && !a.isNullT && !b.isNullT then
      (if op == BinOp.neq then "!" else "")
        ++ "(" ++ genTerm a g ++ ").equals(" ++ genTerm b g ++ ")"
    else
      "(" ++ genTerm a g ++ ") " ++ op.repr ++ " (" ++ genTerm b g ++ ")"
  | .variant c s, g => g.class_str c ++ "." ++ s
  | .array [] t, g =>
    match t with
    | .array t1 => "new " ++ genTy t1 g ++ "[8]"
    | _ => ""
  | .array (v0 :: v) t, g =>
    "new " ++ genTy t g ++ "\x7b " ++ genTermElems (v0 :: v) g ++ "\x7d"
  | .arrayNew len t, g =>
    match t with
    | .array t1 => "new " ++ genTy t1 g ++ "[" ++ genTerm len g ++ "]"
    | _ => ""
  | .classNew c a, g => "new " ++ g.class_str c ++ "(" ++ genTermArgs a g ++ ")"
  | .index arr i _, g => genTerm arr g ++ "[" ++ genTerm i g ++ "]"
  | .inlineJava raw _, _ => raw

/-- Comma-separated argument rendering (the `first` flag loops). -/
def genTermArgs : List JTerm → Gen → String
  | [], _ => ""
  | [x], g => genTerm x g
  | x :: y :: xs, g => genTerm x g ++ ", " ++ genTermArgs (y :: xs) g

/-- Array-literal element rendering: each element is followed by `", "`. -/
def genTermElems : List JTerm → Gen → String
  | [], _ => ""
  | x :: xs, g => genTerm x g ++ ", " ++ genTermElems xs g
end

/-- `JLVal::gen`. -/
def genLVal : JLVal → Gen → String
  | .var v, g => g.name_str v
  | .idx l i, g => genLVal l g ++ "[" ++ genTerm i g ++ "]"
  | .prop a b, g => genTerm a g ++ "." ++ b.gen g

/-- The multi-component `JStmt::Ret` loop: one slot assignment per component,
each followed by a newline and the current indentation. -/
def genRetSlots (f : JFnId) : List JTerm → Nat → Gen → String
  | [], _, _ => ""
  | t :: rest, i, g =>
    g.fn_str f ++ "$_ret" ++ toString i ++ "$S = " ++ genTerm t g ++ ";"
      ++ "\n" ++ g.indentStr ++ genRetSlots f rest (i + 1) g

/-- The `JStmt::MultiCall` out-binding loop: registers each binding's display
name and reads the callee's return slot, qualified by the receiver's class
when there is one. -/
def genMultiRets (o : Option JTerm) (f : JFnId) :
    List (String × JVar × JTy) → Nat → Gen → String × Gen
  | [], _, g => ("", g)
  | (raw, v, t) :: rest, i, g =>
    let g1 := g.insert v.id ([raw], !v.pub)
    let opart :=
      match o with
      | some ob =>
        (match ob.ty with
          | .classT c => g1.class_str c
          | _ => "") ++ "."
      | none => ""
    let s := "\n" ++ g1.indentStr ++ genTy t g1 ++ " " ++ g1.name_str v
      ++ " = " ++ opart ++ g1.fn_str f ++ "$_ret" ++ toString i ++ "$S;"
    let (srest, g2) := genMultiRets o f rest (i + 1) g1
    (s ++ srest, g2)

mutual
/-- `JStmt::gen`: rendering of a statement, threading the emitter state. -/
def genStmt : JStmt → Gen → String × Gen
  | .letS n t v none, g =>
    let g1 := g.insert v.id ([n], !v.pub)
    (genTy t g1 ++ " " ++ g1.name_str v ++ " = " ++ t.null ++ ";", g1)
  | .letS n t v (some x), g =>
    let g1 := g.insert v.id ([n], !v.pub)
    (genTy t g1 ++ " " ++ g1.name_str v ++ " = " ++ genTerm x g1 ++ ";", g1)
  | .set l op x, g =>
    (genLVal l g ++ " "
      ++ (match op with | some o => o.repr | none => "")
      ++ "= " ++ genTerm x g ++ ";", g)
  | .term x, g => (genTerm x g ++ ";", g)
  | .whileS k cond body, g =>
    let head := "b$" ++ toString k ++ ": while (" ++ genTerm cond g ++ ") \x7b"
    let (b, g2) := genBlock body g.push
    let g3 := g2.pop
    (head ++ b ++ "\n" ++ g3.indentStr ++ "\x7d", g3)
  | .rangeFor k n v a b body, g =>
    let g1 := g.insert v.id ([n], !v.pub)
    let i := g1.name_str v
    let head := "b$" ++ toString k ++ ": for (int " ++ i ++ " = "
      ++ genTerm a g1 ++ ", $end_" ++ toString k ++ " = " ++ genTerm b g1
      ++ "; " ++ i ++ " < $end_" ++ toString k ++ "; " ++ i ++ "++) \x7b"
    let (bs, g2) := genBlock body g1.push
    let g3 := g2.pop
    (head ++ bs ++ "\n" ++ g3.indentStr ++ "\x7d", g3)
  | .continueS k, g => ("continue b$" ++ toString k ++ ";", g)
  | .breakS k, g => ("break b$" ++ toString k ++ ";", g)
  | .ret _ [], g => ("return;", g)
  | .ret _ [x], g => ("return " ++ genTerm x g ++ ";", g)
  | .ret f (x :: y :: v), g =>
    (genRetSlots f (x :: y :: v) 0 g ++ "return;", g)
  | .ifS cond a b, g =>
    let head := "if (" ++ genTerm cond g ++ ") \x7b"
    let (sa, g2) := genBlock a g.push
    let g3 := g2.pop
    let s1 := head ++ sa ++ "\n" ++ g3.indentStr ++ "\x7d"
    if b.isEmpty then (s1, g3)
    else
      let (sb, g5) := genBlock b g3.push
      let g6 := g5.pop
      (s1 ++ " else \x7b" ++ sb ++ "\n" ++ g6.indentStr ++ "\x7d", g6)
  | .switch k x branches default, g =>
    let head := "b$" ++ toString k ++ ": switch (" ++ genTerm x g ++ ") \x7b"
    let (sb, g1) := genBranches k branches g
    let s2 := "\n" ++ g1.indentStr ++ "default:"
    let (sd, g3) := genBlock default g1.push
    let g4 := g3.pop
    (head ++ sb ++ s2 ++ sd ++ "\n" ++ g4.indentStr ++ "\x7d", g4)
  | .multiCall o f args rets, g =>
    let recv := match o with | some x => genTerm x g ++ "." | none => ""
    let buf := recv ++ g.fn_str f ++ "(" ++ genTermArgs args g ++ ");"
    let (rs, g1) := genMultiRets o f rets 0 g
    (buf ++ rs, g1)
  | .inlineJava s, g => (s, g)

/-- A statement block: each statement is preceded by a newline and the current
indentation (the `for i in block` loops of `While`/`If`/`Switch`/`RangeFor`
and of `JFn::gen`). -/
def genBlock : List JStmt → Gen → String × Gen
  | [], g => ("", g)
  | s :: rest, g =>
    let (s1, g1) := genStmt s g
    let (s2, g2) := genBlock rest g1
    ("\n" ++ g.indentStr ++ s1 ++ s2, g2)

/-- The `Switch` branch loop: `case <sym>:`, the branch body one level deeper,
then `break b$<label>;`. -/
def genBranches (k : JBlock) : List (String × List JStmt) → Gen → String × Gen
  | [], g => ("", g)
  | (sym, block) :: rest, g =>
    let s0 := "\n" ++ g.indentStr ++ "case " ++ sym ++ ":"
    let (sb, g2) := genBlock block g.push
    let s1 := "\n" ++ g2.indentStr ++ "break b$" ++ toString k ++ ";"
    let g3 := g2.pop
    let (srest, g4) := genBranches k rest g3
    (s0 ++ sb ++ s1 ++ srest, g4)
end

/-- Statement loop of constructor/static-initializer blocks: each statement is
followed (not preceded) by a newline and the indentation. -/
def genBlockTrail : List JStmt → Gen → String × Gen
  | [], g => ("", g)
  | s :: rest, g =>
    let (s1, g1) := genStmt s g
    let (s2, g2) := genBlockTrail rest g1
    (s1 ++ "\n" ++ g1.indentStr ++ s2, g2)

/-- Target function item (`JFn`). -/
structure JFn where
  name : String
  fn_id : JFnId
  ret_tys : List JTy
  args : List (String × JVar × JTy)
  body : List JStmt
  pub : Bool
  throws : List String

/-- The static return-slot declarations of `JFn::gen`, emitted whenever the
return arity differs from 1: one `public static <ty> <fn>$_ret<i>$S;` line per
component. -/
def genSlotDecls (f : JFnId) : List JTy → Nat → Gen → String
  | [], _, _ => ""
  | t :: rest, i, g =>
    "public static " ++ genTy t g ++ " " ++ g.fn_str f ++ "$_ret"
      ++ toString i ++ "$S;\n" ++ g.indentStr ++ genSlotDecls f rest (i + 1) g

/-- The argument loop of `JFn::gen`: registers each argument's display name
then renders `<ty> <name>`, comma-separated. -/
def genArgs : List (String × JVar × JTy) → Bool → Gen → String × Gen
  | [], _, g => ("", g)
  | (n, v, t) :: rest, first, g =>
    let pre := if first then "" else ", "
    let g1 := g.insert v.id ([n], !v.pub)
    let s := pre ++ genTy t g1 ++ " " ++ g1.name_str v
    let (srest, g2) := genArgs rest false g1
    (s ++ srest, g2)

/-- `JFn::gen`: slot declarations when the return arity is not 1, the
signature (`void` unless the arity is exactly 1), arguments, throws clause and
body; the name table is snapshotted before the arguments and restored after
the body. -/
def genJFn (f : JFn) (is_static : Bool) (g : Gen) : String × Gen :=
  let slots :=
    if f.ret_tys.length = 1 then "" else genSlotDecls f.fn_id f.ret_tys 0 g
  let retS := match f.ret_tys with
    | [t] => genTy t g
    | _ => "void"
  let sig := "public " ++ (if is_static then "static " else "") ++ retS ++ " "
    ++ g.fn_str f.fn_id ++ "("
  let saved := g.names
  let (argsS, g1) := genArgs f.args true g
  let throwsS :=
    if f.throws.isEmpty then ""
    else " throws " ++ String.intercalate ", " f.throws
  let (bodyS, g3) := genBlock f.body g1.push
  let g5 := (Gen.mk saved g3.indent).pop
  (slots ++ sig ++ argsS ++ ")" ++ throwsS ++ " \x7b" ++ bodyS ++ "\n"
      ++ g5.indentStr ++ "\x7d\n" ++ g5.indentStr,
    g5)

/-- Target items (`JItem`): only what appears in the emitted code. -/
inductive JItem where
  | fn (f : JFn)
  | enumI (tid : JClass) (variants : List (String × List JTy))
      (wrapper : Option JClass) (methods : List JFn)
  | classI (tid : JClass)
      (members : List (List (JVar × JTy × Option JTerm) × List JStmt))
      (methods : List JFn)
  | letI (vars : List (JVar × JTy × Option JTerm)) (block : List JStmt)

/-- The method loops of `JItem::gen` (methods are generated non-static). -/
def genJFns : List JFn → Gen → String × Gen
  | [], g => ("", g)
  | f :: rest, g =>
    let (s, g1) := genJFn f false g
    let (srest, g2) := genJFns rest g1
    (s ++ srest, g2)

/-- The member-field declarations of a `JItem::Class`. -/
def genClassFields
    (members : List (List (JVar × JTy × Option JTerm) × List JStmt))
    (g : Gen) : String :=
  String.join (members.map fun m =>
    String.join (m.1.map fun x =>
      "\n" ++ g.indentStr ++ "public " ++ genTy x.2.1 g ++ " "
        ++ g.name_str x.1 ++ ";"))

/-- The constructor body of a `JItem::Class`: each member's init block, then
the parallel field assignments for members that carry an initializer. -/
def genCtorBody :
    List (List (JVar × JTy × Option JTerm) × List JStmt) → Gen → String × Gen
  | [], g => ("", g)
  | (vars, block) :: rest, g =>
    let (sb, g1) := genBlockTrail block g
    let sv := String.join (vars.map fun x =>
      match x.2.2 with
      | some t => "\n" ++ g1.indentStr ++ g1.name_str x.1 ++ " = "
          ++ genTerm t g1 ++ ";"
      | none => "")
    let (srest, g2) := genCtorBody rest g1
    (sb ++ sv ++ srest, g2)

/-- `JItem::gen`. -/
def genItem : JItem → Gen → String × Gen
  | .fn f, g => genJFn f true g
  | .classI tid members methods, g =>
    let h0 := "public static class " ++ g.class_str tid ++ " \x7b"
    let g1 := g.push
    let fields := genClassFields members g1
    let h1 := "\n" ++ g1.indentStr ++ "public " ++ g1.class_str tid ++ "() \x7b"
    let (body, g3) := genCtorBody members g1.push
    let g4 := g3.pop
    let h2 := "\n" ++ g4.indentStr ++ "\x7d" ++ "\n" ++ g4.indentStr
    let (ms, g5) := genJFns methods g4
    let g6 := g5.pop
    (h0 ++ fields ++ h1 ++ body ++ h2 ++ ms ++ "\n" ++ g6.indentStr
        ++ "\x7d\n" ++ g6.indentStr,
      g6)
  | .enumI tid variants wrapper methods, g =>
    let h0 := "public static enum " ++ g.class_str tid ++ " \x7b"
    let g1 := g.push
    let vs := String.join (variants.map fun v => "\n" ++ g1.indentStr ++ v.1 ++ ",")
    let (s2, g2) :=
      if wrapper.isNone && !methods.isEmpty then
        let base := (h0 ++ vs).dropRight 1 ++ ";"
        let (ms, gm) := genJFns methods g1
        (base ++ ms, gm)
      else (h0 ++ vs, g1)
    let g3 := g2.pop
    let s3 := s2 ++ "\n" ++ g3.indentStr ++ "\x7d\n" ++ g3.indentStr
    match wrapper with
    | some w =>
      let h1 := "public static class " ++ g3.class_str w ++ " \x7b"
      let g4 := g3.push
      let ty0 := "\n" ++ g4.indentStr ++ "public " ++ g4.class_str tid ++ " $type;"
      let flds := String.join (variants.map fun v =>
        String.join (v.2.enum.map fun x =>
          "\n" ++ g4.indentStr ++ "public " ++ genTy x.2 g4 ++ " _enum$"
            ++ v.1 ++ "$" ++ toString x.1 ++ ";"))
      let s4 := "\n" ++ g4.indentStr
      let (ms, g5) := genJFns methods g4
      let g6 := g5.pop
      (s3 ++ h1 ++ ty0 ++ flds ++ s4 ++ ms ++ "\n" ++ g6.indentStr
          ++ "\x7d\n" ++ g6.indentStr,
        g6)
    | none => (s3, g3)
  | .letI vars block, g =>
    let decls := String.join (vars.map fun x =>
      "public static " ++ genTy x.2.1 g ++ " " ++ g.name_str x.1 ++ ";\n"
        ++ g.indentStr)
    if !block.isEmpty || vars.any (fun x => x.2.2.isSome) then
      let g1 := g.push
      let (sb, g2) := genBlockTrail block g1
      let sv := String.join (vars.map fun x =>
        match x.2.2 with
        | some value => g2.name_str x.1 ++ " = " ++ genTerm value g2 ++ ";\n"
            ++ g2.indentStr ++ "\n" ++ g2.indentStr
        | none => "")
      let g3 := g2.pop
      (decls ++ "static \x7b\n" ++ g1.indentStr ++ sb ++ sv ++ "\x7d\n"
          ++ g3.indentStr,
        g3)
    else (decls, g)

/-- The item loop of `IRMod::codegen`. -/
def genItems : List JItem → Gen → String × Gen
  | [], g => ("", g)
  | i :: rest, g =>
    let (s, g1) := genItem i g
    let (srest, g2) := genItems rest g1
    (s ++ srest, g2)

/-- Stripping of the current module's name from the head of a qualified path
(unqualified self-reference). -/
def stripSelf (selfName : String) (m : List String) : List String :=
  if m.head? = some selfName then m.tail else m

/-- The name-table merge of `IRMod::codegen`: every module's mapping entries
are inserted in order into one table (later entries override), with the
current module's name stripped from path heads. -/
def mkNames (selfName : String)
    (mods : List (List (Nat × List String × Bool))) : Nat → List String × Bool :=
  mods.flatten.foldl
    (fun f x k => if k = x.1 then (stripSelf selfName x.2.1, x.2.2) else f k)
    (fun _ => ([], false))

/-- `IRMod::codegen`, given the already-lowered items: package header, inline
passthrough lines, and the items wrapped in `public class <out> { ... }`. -/
def codegen (package : String) (selfName : String) (java : List String)
    (out_class : String) (mods : List (List (Nat × List String × Bool)))
    (items : List JItem) : String :=
  "package " ++ package ++ ";\n\n"
    ++ String.join (java.map fun i => i ++ "\n")
    ++ "\npublic class " ++ out_class ++ " \x7b\n\n"
    ++ (genItems items (Gen.mk (mkNames selfName mods) 0)).1
    ++ "\n\x7d"

theorem join_foldl_acc (l : List String) :
    ∀ acc : String, l.foldl (fun r s => r ++ s) acc = acc ++ String.join l := by
  induction l with
  | nil => intro acc; simp [String.join, String.append_empty]
  | cons x xs ih =>
    intro acc
    have h1 : String.join (x :: xs) = x ++ String.join xs := by
      show List.foldl _ _ _ = _
      rw [List.foldl_cons, ih]
      rfl
    rw [List.foldl_cons, ih, h1, String.append_assoc]

theorem join_cons (a : String) (l : List String) :
    String.join (a :: l) = a ++ String.join l := by
  show List.foldl _ _ _ = _
  rw [List.foldl_cons, join_foldl_acc]
  rfl

/-- C8: a binary `==`/`!=` on non-primitive operands, neither of which is a
null literal, renders as `(a).equals(b)` with a `!` prefix for `!=`; with
primitive operands, or when either operand is a null literal, the ordinary
infix operator is rendered. -/
theorem nonprimitive_equality_rewrite (a b : JTerm) (g : Gen) :
    (a.ty.primitive = false → b.ty.primitive = false →
      a.isNullT = false → b.isNullT = false →
      genTerm (.binop .eq a b) g =
          "(" ++ genTerm a g ++ ").equals(" ++ genTerm b g ++ ")" ∧
        genTerm (.binop .neq a b) g =
          "!" ++ "(" ++ genTerm a g ++ ").equals(" ++ genTerm b g ++ ")") ∧
    (a.ty.primitive = true → b.ty.primitive = true →
      ∀ op, op = BinOp.eq ∨ op = BinOp.neq →
      genTerm (.binop op a b) g =
        "(" ++ genTerm a g ++ ") " ++ op.repr ++ " (" ++ genTerm b g ++ ")") ∧
    (a.isNullT = true ∨ b.isNullT = true →
      ∀ op,
      genTerm (.binop op a b) g =
        "(" ++ genTerm a g ++ ") " ++ op.repr ++ " (" ++ genTerm b g ++ ")") := by
  refine ⟨?_, ?_, ?_⟩
  · intro ha hb hna hnb
    constructor <;> simp [genTerm, ha, hna, hnb]
  · intro ha hb op hop
    simp [genTerm, ha]
  · intro h op
    rcases h with h | h <;> simp [genTerm, h]

theorem nonprimitive_equality_rewrite_witness :
    genTerm (.binop .eq (.var ⟨1, true⟩ JTy.string) (.var ⟨2, true⟩ JTy.string))
        (Gen.mk (fun _ => (["s"], false)) 0) =
      "(s).equals(s)" :=
  ((nonprimitive_equality_rewrite (.var ⟨1, true⟩ JTy.string)
        (.var ⟨2, true⟩ JTy.string) (Gen.mk (fun _ => (["s"], false)) 0)).1
      rfl rfl rfl rfl).1

/-- The empty-`Term::Array` case of `Term::lower` (backend.rs lines
1436-1444): one empty target array literal per lowered component type,
followed by the length literal `0`.  The input is the already-lowered element
type list `t.lower(cxt)`. -/
def lowerEmptyArray (tys : List JTy) : List JTerm :=
  tys.map (fun ty => JTerm.array [] (JTy.array ty)) ++ [JTerm.lit (JLit.int 0)]

theorem genTermElems_eq_join (v : List JTerm) (g : Gen) :
    genTermElems v g = String.join (v.map fun e => genTerm e g ++ ", ") := by
  induction v with
  | nil => rfl
  | cons x xs ih => rw [genTermElems, ih, List.map_cons, join_cons]

/-- C9: an empty array literal lowers to one empty component array per lowered
element type plus the length literal `0`, and each empty component array is
emitted as `new T[8]`; non-empty array literals are emitted with initializer
syntax listing their actual elements. -/
theorem empty_array_capacity_eight (tys : List JTy) (g : Gen) :
    ((lowerEmptyArray tys).length = tys.length + 1 ∧
      (lowerEmptyArray tys).getLast? = some (JTerm.lit (JLit.int 0)) ∧
      ∀ i, (h : i < tys.length) →
        (lowerEmptyArray tys)[i]? =
            some (JTerm.array [] (JTy.array tys[i])) ∧
          genTerm (JTerm.array [] (JTy.array tys[i])) g =
            "new " ++ genTy tys[i] g ++ "[8]") ∧
    ∀ (v : List JTerm) (t : JTy), v ≠ [] →
      genTerm (JTerm.array v t) g =
        "new " ++ genTy t g ++ "\x7b "
          ++ String.join (v.map fun e => genTerm e g ++ ", ") ++ "\x7d" := by
  refine ⟨⟨?_, ?_, ?_⟩, ?_⟩
  · simp [lowerEmptyArray]
  · exact List.getLast?_concat _
  · intro i h
    refine ⟨?_, ?_⟩
    · simp only [lowerEmptyArray, List.getElem?_append, List.length_map]
      rw [if_pos h, List.getElem?_map, List.getElem?_eq_getElem h]
      rfl
    · rfl
  · intro v t hv
    match v with
    | x :: xs =>
      rw [genTerm, genTermElems_eq_join]

theorem empty_array_capacity_eight_witness :
    genTerm (JTerm.array [] (JTy.array [JTy.i32][0]))
        (Gen.mk (fun _ => ([], false)) 0) =
      "new " ++ genTy [JTy.i32][0] (Gen.mk (fun _ => ([], false)) 0) ++ "[8]" :=
  (((empty_array_capacity_eight [JTy.i32]
        (Gen.mk (fun _ => ([], false)) 0)).1.2.2 0 (by decide)).2)

theorem genSlotDecls_eq_join (f : JFnId) (g : Gen) :
    ∀ (tys : List JTy) (i : Nat),
      genSlotDecls f tys i g =
        String.join ((List.enumFrom i tys).map fun x =>
          "public static " ++ genTy x.2 g ++ " " ++ g.fn_str f
            ++ "$_ret" ++ toString x.1 ++ "$S;\n" ++ g.indentStr) := by
  intro tys
  induction tys with
  | nil => intro i; rfl
  | cons t rest ih =>
    intro i
    rw [genSlotDecls, ih, List.enumFrom, List.map_cons, join_cons]

theorem genRetSlots_eq_join (f : JFnId) (g : Gen) :
    ∀ (v : List JTerm) (i : Nat),
      genRetSlots f v i g =
        String.join ((List.enumFrom i v).map fun x =>
          g.fn_str f ++ "$_ret" ++ toString x.1 ++ "$S = "
            ++ genTerm x.2 g ++ ";" ++ "\n" ++ g.indentStr) := by
  intro v
  induction v with
  | nil => intro i; rfl
  | cons t rest ih =>
    intro i
    rw [genRetSlots, ih, List.enumFrom, List.map_cons, join_cons]

/-- C4: for a function whose lowered return arity `k` is not 1, the emitted
text opens with exactly `k` static slot-field declarations
`<fn>$_ret<i>$S` (`i` from 0 to `k-1`) followed by a `void` signature; and
every emitted multi-component return assigns all `k` slots before issuing a
bare `return;`. -/
theorem multi_return_convention (f : JFn) (is_static : Bool) (g : Gen)
    (h : f.ret_tys.length ≠ 1) :
    (∃ rest, (genJFn f is_static g).1 =
      String.join (f.ret_tys.enum.map fun x =>
        "public static " ++ genTy x.2 g ++ " " ++ g.fn_str f.fn_id
          ++ "$_ret" ++ toString x.1 ++ "$S;\n" ++ g.indentStr)
      ++ ("public " ++ (if is_static then "static " else "") ++ "void "
          ++ g.fn_str f.fn_id ++ "(") ++ rest) ∧
    (∀ (fid : JFnId) (v : List JTerm) (g1 : Gen), 2 ≤ v.length →
      (genStmt (.ret fid v) g1).1 =
        String.join (v.enum.map fun x =>
          g1.fn_str fid ++ "$_ret" ++ toString x.1 ++ "$S = "
            ++ genTerm x.2 g1 ++ ";" ++ "\n" ++ g1.indentStr) ++ "return;") := by
  constructor
  · obtain ⟨nm, fnid, ret_tys, args, body, pub, throws⟩ := f
    simp only at h
    refine ⟨(genArgs args true g).1 ++ ")"
      ++ (if throws.isEmpty then ""
          else " throws " ++ String.intercalate ", " throws)
      ++ " \x7b" ++ (genBlock body ((genArgs args true g).2.push)).1 ++ "\n"
      ++ ((Gen.mk g.names (genBlock body ((genArgs args true g).2.push)).2.indent).pop).indentStr
      ++ "\x7d\n"
      ++ ((Gen.mk g.names (genBlock body ((genArgs args true g).2.push)).2.indent).pop).indentStr, ?_⟩
    rw [genJFn]
    simp only [if_neg h]
    rw [show List.enum ret_tys = List.enumFrom 0 ret_tys from rfl,
      ← genSlotDecls_eq_join fnid g ret_tys 0]
    rcases ret_tys with _ | ⟨t, _ | ⟨u, rest2⟩⟩
    · simp [String.append_assoc]
    · exact absurd rfl h
    · simp [String.append_assoc]
  · intro fid v g1 hv
    rcases v with _ | ⟨x, _ | ⟨y, v⟩⟩
    · simp at hv
    · simp at hv
    · rw [genStmt]
      simp only
      rw [genRetSlots_eq_join]
      rfl

theorem multi_return_convention_witness :
    (genStmt (.ret 7 [JTerm.lit (JLit.int 1), JTerm.lit (JLit.int 2)])
        (Gen.mk (fun _ => (["f"], false)) 0)).1 =
      String.join
        (([JTerm.lit (JLit.int 1), JTerm.lit (JLit.int 2)]).enum.map fun x =>
          (Gen.mk (fun _ => (["f"], false)) 0).fn_str 7 ++ "$_ret"
            ++ toString x.1 ++ "$S = "
            ++ genTerm x.2 (Gen.mk (fun _ => (["f"], false)) 0) ++ ";" ++ "\n"
            ++ (Gen.mk (fun _ => (["f"], false)) 0).indentStr) ++ "return;" :=
  (multi_return_convention (JFn.mk "f" 7 [] [] [] true []) true
      (Gen.mk (fun _ => (["f"], false)) 0) (by decide)).2
    7 [JTerm.lit (JLit.int 1), JTerm.lit (JLit.int 2)]
    (Gen.mk (fun _ => (["f"], false)) 0) (by decide)

/-- C6: codegen is deterministic.  The emitter is a pure function of its
inputs, and the merged name table (the only hash-keyed state) enters the
output only through point lookups: replacing it by any table with the same
lookup content leaves the emitted string byte-identical, so two runs on
identical input IR, interner state, package name and output class name
produce byte-identical source text. -/
theorem codegen_deterministic (package selfName : String) (java : List String)
    (out_class : String) (items : List JItem)
    (mods1 mods2 : List (List (Nat × List String × Bool)))
    (h : ∀ k, mkNames selfName mods1 k = mkNames selfName mods2 k) :
    codegen package selfName java out_class mods1 items =
      codegen package selfName java out_class mods2 items := by
  unfold codegen
  rw [funext h]

theorem codegen_deterministic_witness :
    codegen "pkg" "m" [] "Out" [[(1, ["a"], true)]] [] =
      codegen "pkg" "m" [] "Out" [[(1, ["a"], true)], []] [] :=
  codegen_deterministic "pkg" "m" [] "Out" []
    [[(1, ["a"], true)]] [[(1, ["a"], true)], []] (fun _ => rfl)

/-! Declare-P1 (`declare_p1`) and the enum-wrapper protocol. -/

/-- Modelled from the spec: the shapes of top-level IR items consumed by the
declare phases (`Item` in the missing `term.rs`).  Payloads that `declare_p1`
never consults (function bodies, members, methods) are elided. -/
inductive ItemI where
  | fnI
  | externFnI
  | classI (c : Nat)
  | externClassI (c : Nat)
  | enumI (c : Nat) (variants : List (String × List Ty)) (ext : Bool)
  | inlineJavaI (s : String)
  | letDecl (s : Nat)

/-- The slice of `Cxt` that `declare_p1` touches: the `(TypeId, JClass)` list,
the enum-wrapper map, and the fresh-id counter. -/
structure Cxt1 where
  types : List (Nat × JClass)
  enum_wrappers : JClass → Option JClass
  next : Nat

/-- `Cxt::fresh_class`: bump the counter and hand out the new id. -/
def Cxt1.fresh_class (c : Cxt1) : JClass × Cxt1 :=
  (c.next + 1, { c with next := c.next + 1 })

/-- One iteration of the `declare_p1` loop: classes and extern classes get a
fresh class id; enums get a fresh class id plus, when any variant carries a
payload, a fresh companion wrapper class registered in `enum_wrappers`. -/
def declare_p1_item : ItemI → Cxt1 → Cxt1
  | .externClassI tid, c =>
    let p := c.fresh_class
    { p.2 with types := p.2.types ++ [(tid, p.1)] }
  | .classI tid, c =>
    let p := c.fresh_class
    { p.2 with types := p.2.types ++ [(tid, p.1)] }
  | .enumI tid vs _ext, c =>
    let p := c.fresh_class
    let c1 : Cxt1 := { p.2 with types := p.2.types ++ [(tid, p.1)] }
    if vs.any (fun v => !v.2.isEmpty) then
      let q := c1.fresh_class
      { q.2 with
        enum_wrappers := fun k =>
          if k = p.1 then some q.1 else q.2.enum_wrappers k }
    else c1
  | _, c => c

/-- `declare_p1`: the item loop. -/
def declare_p1 : List ItemI → Cxt1 → Cxt1
  | [], c => c
  | i :: rest, c => declare_p1 rest (declare_p1_item i c)

theorem declare_p1_append (a b : List ItemI) (c : Cxt1) :
    declare_p1 (a ++ b) c = declare_p1 b (declare_p1 a c) := by
  induction a generalizing c with
  | nil => rfl
  | cons i rest ih => simp [declare_p1, ih]

theorem declare_p1_item_next_mono (i : ItemI) (c : Cxt1) :
    c.next ≤ (declare_p1_item i c).next := by
  cases i with
  | fnI => exact le_refl _
  | externFnI => exact le_refl _
  | classI tid => exact Nat.le_succ _
  | externClassI tid => exact Nat.le_succ _
  | inlineJavaI s => exact le_refl _
  | letDecl s => exact le_refl _
  | enumI tid vs ext =>
    simp only [declare_p1_item, Cxt1.fresh_class]
    split
    · exact Nat.le_add_right _ 2
    · exact Nat.le_succ _

theorem declare_p1_item_wr_preserve (i : ItemI) (c : Cxt1) (k w : JClass)
    (hw : c.enum_wrappers k = some w) (hk : k ≤ c.next) :
    (declare_p1_item i c).enum_wrappers k = some w := by
  cases i with
  | enumI tid vs ext =>
    simp only [declare_p1_item, Cxt1.fresh_class]
    split
    · show (if k = c.next + 1 then some (c.next + 1 + 1)
        else c.enum_wrappers k) = some w
      rw [if_neg (show ¬k = c.next + 1 from
        fun hkk => Nat.not_succ_le_self c.next (by rw [hkk] at hk; exact hk))]
      exact hw
    · exact hw
  | fnI => exact hw
  | externFnI => exact hw
  | classI tid => exact hw
  | externClassI tid => exact hw
  | inlineJavaI s => exact hw
  | letDecl s => exact hw

theorem declare_p1_item_types_preserve (i : ItemI) (c : Cxt1)
    (tid : Nat) (cl : JClass) (h : (tid, cl) ∈ c.types) :
    (tid, cl) ∈ (declare_p1_item i c).types := by
  cases i with
  | enumI tid2 vs ext =>
    simp only [declare_p1_item, Cxt1.fresh_class]
    split
    · exact List.mem_append_left _ h
    · exact List.mem_append_left _ h
  | classI tid2 => exact List.mem_append_left _ h
  | externClassI tid2 => exact List.mem_append_left _ h
  | fnI => exact h
  | externFnI => exact h
  | inlineJavaI s => exact h
  | letDecl s => exact h

theorem declare_p1_wr_preserve (l : List ItemI) (c : Cxt1) (k w : JClass)
    (hw : c.enum_wrappers k = some w) (hk : k ≤ c.next) :
    (declare_p1 l c).enum_wrappers k = some w := by
  induction l generalizing c with
  | nil => exact hw
  | cons i rest ih =>
    exact ih (declare_p1_item i c)
      (declare_p1_item_wr_preserve i c k w hw hk)
      (le_trans hk (declare_p1_item_next_mono i c))

theorem declare_p1_types_preserve (l : List ItemI) (c : Cxt1)
    (tid : Nat) (cl : JClass) (h : (tid, cl) ∈ c.types) :
    (tid, cl) ∈ (declare_p1 l c).types := by
  induction l generalizing c with
  | nil => exact h
  | cons i rest ih =>
    exact ih (declare_p1_item i c) (declare_p1_item_types_preserve i c tid cl h)

/-- The `Term::Variant` case of `Term::lower` (backend.rs lines 1326-1357).
`args` is the flattened list of already-lowered payload terms
(`v.iter().flat_map(|x| x.lower(cxt))`); statements their lowering may have
pushed are not represented.  With a wrapper the construction spills a fresh
`$_variant` local, sets `$type` to the bare enum constant, then sets each
payload field `_enum$<variant>$<i>` in order, and returns the wrapper
reference; without a wrapper the payload must be empty (an assertion in the
source, modelled as `none`) and the bare enum constant is returned. -/
def lowerVariant (cl : JClass) (wrapper : Option JClass) (s : String)
    (args : List JTerm) (next : Nat) : Option (List JStmt × JTerm × Nat) :=
  let variant := JTerm.variant cl s
  match wrapper with
  | some w =>
    let term := JTerm.classNew w []
    let ty := JTy.classT w
    let var : JVar := ⟨next + 1, false⟩
    let s0 := JStmt.letS "$_variant" ty var (some term)
    let s1 := JStmt.set
      (JLVal.prop (JTerm.var var ty) (JProp.raw "$type")) none variant
    let sets := args.enum.map fun x =>
      JStmt.set
        (JLVal.prop (JTerm.var var ty)
          (JProp.raw ("_enum$" ++ s ++ "$" ++ toString x.1)))
        none x.2
    some (s0 :: s1 :: sets, JTerm.var var ty, next + 1)
  | none =>
    if args.length = 0 then some ([], variant, next) else none

/-- C5: an enum with a payload-bearing variant gets a companion wrapper class
allocated by `declare_p1`; the emitted wrapper class declares a `$type` field
of the enum type and one `_enum$<variant>$<i>` field per payload component of
every variant; and lowering a wrapped variant construction allocates a fresh
local, sets `$type` to the bare enum constant, then sets each payload field in
order before the wrapper reference is returned. -/
theorem enum_wrapper_protocol :
    (∀ (pre post : List ItemI) (c0 : Cxt1) (tid : Nat)
        (vs : List (String × List Ty)) (ext : Bool),
      (∃ v ∈ vs, v.2 ≠ []) →
      ∃ cl w,
        (tid, cl) ∈ (declare_p1 (pre ++ .enumI tid vs ext :: post) c0).types ∧
        (declare_p1 (pre ++ .enumI tid vs ext :: post) c0).enum_wrappers cl
          = some w) ∧
    (∀ (tid : JClass) (variants : List (String × List JTy)) (w : JClass)
        (methods : List JFn) (g : Gen),
      ∃ enumPart msPart tail,
        (genItem (.enumI tid variants (some w) methods) g).1 =
          enumPart
            ++ ("public static class " ++ g.class_str w ++ " \x7b")
            ++ ("\n" ++ (Gen.mk g.names (g.indent + 1)).indentStr ++ "public "
                ++ g.class_str tid ++ " $type;")
            ++ String.join (variants.map fun v =>
                String.join (v.2.enum.map fun x =>
                  "\n" ++ (Gen.mk g.names (g.indent + 1)).indentStr ++ "public "
                    ++ genTy x.2 (Gen.mk g.names (g.indent + 1)) ++ " _enum$"
                    ++ v.1 ++ "$" ++ toString x.1 ++ ";"))
            ++ msPart ++ tail) ∧
    (∀ (cl w : JClass) (s : String) (args : List JTerm) (next : Nat),
      lowerVariant cl (some w) s args next =
        some (JStmt.letS "$_variant" (JTy.classT w) ⟨next + 1, false⟩
            (some (JTerm.classNew w []))
          :: JStmt.set (JLVal.prop (JTerm.var ⟨next + 1, false⟩ (JTy.classT w))
              (JProp.raw "$type")) none (JTerm.variant cl s)
          :: args.enum.map (fun x =>
              JStmt.set (JLVal.prop (JTerm.var ⟨next + 1, false⟩ (JTy.classT w))
                (JProp.raw ("_enum$" ++ s ++ "$" ++ toString x.1))) none x.2),
          JTerm.var ⟨next + 1, false⟩ (JTy.classT w), next + 1)) := by
  refine ⟨?_, ?_, ?_⟩
  · intro pre post c0 tid vs ext hpay
    rw [declare_p1_append]
    set c1 := declare_p1 pre c0 with hc1
    have hany : (vs.any fun v => !v.2.isEmpty) = true := by
      rw [List.any_eq_true]
      obtain ⟨v, hv, hne⟩ := hpay
      exact ⟨v, hv, by simpa using hne⟩
    have hstep : declare_p1_item (.enumI tid vs ext) c1 =
        ⟨c1.types ++ [(tid, c1.next + 1)],
         fun k => if k = c1.next + 1 then some (c1.next + 1 + 1)
           else c1.enum_wrappers k,
         c1.next + 1 + 1⟩ := by
      simp [declare_p1_item, Cxt1.fresh_class, hany]
    refine ⟨c1.next + 1, c1.next + 1 + 1, ?_, ?_⟩
    · show (tid, c1.next + 1) ∈
        (declare_p1 post (declare_p1_item (.enumI tid vs ext) c1)).types
      apply declare_p1_types_preserve
      rw [hstep]
      exact List.mem_append_right _ (List.mem_singleton.mpr rfl)
    · show (declare_p1 post
          (declare_p1_item (.enumI tid vs ext) c1)).enum_wrappers (c1.next + 1)
        = some (c1.next + 1 + 1)
      apply declare_p1_wr_preserve
      · rw [hstep]
        simp
      · rw [hstep]
        exact Nat.le_succ _
  · intro tid variants w methods g
    refine ⟨("public static enum " ++ g.class_str tid ++ " \x7b"
        ++ String.join (variants.map fun v =>
            "\n" ++ (Gen.mk g.names (g.indent + 1)).indentStr ++ v.1 ++ ","))
        ++ "\n" ++ g.indentStr ++ "\x7d\n" ++ g.indentStr,
      "\n" ++ (Gen.mk g.names (g.indent + 1)).indentStr
        ++ (genJFns methods (Gen.mk g.names (g.indent + 1))).1,
      "\n" ++ (Gen.mk g.names
          ((genJFns methods
            (Gen.mk g.names (g.indent + 1))).2.indent - 1)).indentStr
        ++ "\x7d\n" ++ (Gen.mk g.names
          ((genJFns methods
            (Gen.mk g.names (g.indent + 1))).2.indent - 1)).indentStr, ?_⟩
    simp only [genItem]
    simp [String.append_assoc, Gen.push, Gen.pop, Gen.indentStr]
    rw [show ({ names := g.names, indent := g.indent } : Gen) = g from rfl,
      show ({ names := g.names, indent := g.indent + 1 } : Gen).class_str tid
        = g.class_str tid from rfl]
  · intro cl w s args next
    rfl

theorem enum_wrapper_protocol_witness :
    lowerVariant 4 (some 5) "A" [JTerm.lit (JLit.int 7)] 9 =
      some ([JStmt.letS "$_variant" (JTy.classT 5) ⟨10, false⟩
          (some (JTerm.classNew 5 [])),
        JStmt.set (JLVal.prop (JTerm.var ⟨10, false⟩ (JTy.classT 5))
          (JProp.raw "$type")) none (JTerm.variant 4 "A"),
        JStmt.set (JLVal.prop (JTerm.var ⟨10, false⟩ (JTy.classT 5))
          (JProp.raw "_enum$A$0")) none (JTerm.lit (JLit.int 7))],
        JTerm.var ⟨10, false⟩ (JTy.classT 5), 10) :=
  enum_wrapper_protocol.2.2 4 5 "A" [JTerm.lit (JLit.int 7)] 9

/-! Operational semantics for the statement fragment that dynamic-array
lowering emits (`Let`, `Set` on variables and indexed variables, `If`, and the
`System.arraycopy` intrinsic call).  Values carry their own width so that
Java's wrapping `int`/`long` arithmetic is explicit; arrays are Lean lists and
the in-place mutation of `System.arraycopy` is modelled by writing the copied
array back through the destination l-value (the generated code never aliases
two live references to the same backing array, so value semantics agrees with
Java's reference semantics on this fragment).  Constructs the array lowering
never executes evaluate to `none`. -/

inductive Val where
  | i32 (n : Int)
  | i64 (n : Int)
  | b (x : Bool)
  | str (s : String)
  | arr (l : List Val)
  | null
deriving Repr

/-- A variable store, keyed by target-variable id. -/
def State := Nat → Option Val

/-- Store update. -/
def setVar (σ : State) (k : Nat) (v : Val) : State :=
  fun k' => if k' = k then some v else σ k'

/-- Java default values per type (what `new T[n]` fills slots with). -/
def defaultVal : JTy → Val
  | .i32 => .i32 0
  | .i64 => .i64 0
  | .bool => .b false
  | .string => .null
  | .classT _ => .null
  | .array _ => .null

/-- Width-respecting binary operations used by the array lowering; other
operator/value combinations are outside the fragment. -/
def evalBinOp : BinOp → Val → Val → Option Val
  | .add, .i32 x, .i32 y => some (.i32 (wrap32 (x + y)))
  | .add, .i64 x, .i64 y => some (.i64 (wrap64 (x + y)))
  | .sub, .i32 x, .i32 y => some (.i32 (wrap32 (x - y)))
  | .sub, .i64 x, .i64 y => some (.i64 (wrap64 (x - y)))
  | .mul, .i32 x, .i32 y => some (.i32 (wrap32 (x * y)))
  | .mul, .i64 x, .i64 y => some (.i64 (wrap64 (x * y)))
  | .gt, .i32 x, .i32 y => some (.b (decide (x > y)))
  | .gt, .i64 x, .i64 y => some (.b (decide (x > y)))
  | .lt, .i32 x, .i32 y => some (.b (decide (x < y)))
  | .lt, .i64 x, .i64 y => some (.b (decide (x < y)))
  | _, _, _ => none

/-- Literal evaluation (the `Lit` arm). -/
def evalLit : JLit → Val
  | .int i => .i32 i
  | .long i => .i64 i
  | .str s => .str s
  | .bool x => .b x

/-- Boolean negation on evaluated values (the `Not` arm). -/
def notVal : Option Val → Option Val
  | some (.b y) => some (.b (!y))
  | _ => none

/-- Binary operation on evaluated operands (the `BinOp` arm). -/
def binopVal (op : BinOp) : Option Val → Option Val → Option Val
  | some vx, some vy => evalBinOp op vx vy
  | _, _ => none

/-- Property access on an evaluated receiver (the `Prop` arm): only the
`length` property of an array is in the fragment. -/
def lengthVal (p : JProp) : Option Val → Option Val
  | some (.arr el) =>
    match p with
    | .raw s => if s = "length" then some (.i32 (Int.ofNat el.length)) else none
    | .var _ => none
  | _ => none

/-- Array indexing on evaluated operands (the `Index` arm; out of bounds is
the Java exception, `none`). -/
def indexVal : Option Val → Option Val → Option Val
  | some (.arr el), some (.i32 n) => if 0 ≤ n then el[n.toNat]? else none
  | _, _ => none

/-- `new T[n]` on an evaluated length (the `ArrayNew` arm). -/
def arrayNewVal : Option Val → JTy → Option Val
  | some (.i32 n), .array et =>
    if 0 ≤ n then some (.arr (List.replicate n.toNat (defaultVal et)))
    else none
  | _, _ => none

/-- Term evaluation on the fragment: variables, literals, negation, the
arithmetic/comparison operators, the `length` property of an array, array
indexing and `new T[n]`; everything else is outside the fragment. -/
def evalTerm (σ : State) : JTerm → Option Val
  | .var v _ => σ v.id
  | .lit lv => some (evalLit lv)
  | .null _ => some Val.null
  | .not x => notVal (evalTerm σ x)
  | .binop op x y => binopVal op (evalTerm σ x) (evalTerm σ y)
  | .prop o p _ => lengthVal p (evalTerm σ o)
  | .index x i _ => indexVal (evalTerm σ x) (evalTerm σ i)
  | .arrayNew len t => arrayNewVal (evalTerm σ len) t
  | _ => none

/-- Reading an l-value. -/
def readLVal (σ : State) : JLVal → Option Val
  | .var v => σ v.id
  | .idx lv i => indexVal (readLVal σ lv) (evalTerm σ i)
  | .prop _ _ => none

/-- In-bounds element update on evaluated array and index. -/
def setIdx : Option Val → Option Val → Val → Option (List Val)
  | some (.arr el), some (.i32 n), x =>
    if 0 ≤ n ∧ n.toNat < el.length then some (el.set n.toNat x) else none
  | _, _, _ => none

/-- Writing an l-value (for an indexed l-value, write the updated array back
through the base l-value). -/
def writeLVal (σ : State) : JLVal → Val → Option State
  | .var v, x => some (setVar σ v.id x)
  | .idx lv i, x =>
    match setIdx (readLVal σ lv) (evalTerm σ i) x with
    | some el2 => writeLVal σ lv (.arr el2)
    | none => none
  | .prop _ _, _ => none

/-- `System.arraycopy(src, sp, dst, dp, n)` on list-valued arrays. -/
def arraycopyList (src : List Val) (sp : Nat) (dst : List Val) (dp n : Nat) :
    List Val :=
  dst.take dp ++ (src.drop sp).take n ++ dst.drop (dp + n)

/-- The `Let` statement: bind the evaluated initializer, or the type's default
value for an uninitialized let (which the emitter renders as `= <null value>`). -/
def execLet (σ : State) (t : JTy) (v : JVar) : Option JTerm → Option State
  | some e =>
    match evalTerm σ e with
    | some vv => some (setVar σ v.id vv)
    | none => none
  | none => some (setVar σ v.id (defaultVal t))

/-- The `Set` statement: a plain store, or a compound `op=` read-modify-write. -/
def execSet (σ : State) (lv : JLVal) (op : Option BinOp) (x : JTerm) :
    Option State :=
  match op with
  | none =>
    match evalTerm σ x with
    | some vx => writeLVal σ lv vx
    | none => none
  | some o =>
    match readLVal σ lv, evalTerm σ x with
    | some old, some vx =>
      match evalBinOp o old vx with
      | some nv => writeLVal σ lv nv
      | none => none
    | _, _ => none

/-- The `MultiCall` of the `ArrayCopy` predef (no receiver, five arguments, no
out-bindings) with `System.arraycopy` semantics: bounds-checked copy into the
destination array, written back through the destination l-value. -/
def execArrayCopy (copyFn : Nat) (σ : State) (o : Option JTerm) (f : JFnId)
    (args : List JTerm) (rets : List (String × JVar × JTy)) : Option State :=
  match o, args, rets with
  | none, [src, srcPos, dst, dstPos, cnt], [] =>
    if f = copyFn then
      match evalTerm σ src, evalTerm σ srcPos, dst.to_lval,
          evalTerm σ dstPos, evalTerm σ cnt with
      | some (.arr ls), some (.i32 sp), some dlv, some (.i32 dp),
          some (.i32 n) =>
        match readLVal σ dlv with
        | some (.arr ld) =>
          if 0 ≤ sp ∧ 0 ≤ dp ∧ 0 ≤ n ∧ sp.toNat + n.toNat ≤ ls.length
              ∧ dp.toNat + n.toNat ≤ ld.length then
            writeLVal σ dlv (.arr (arraycopyList ls sp.toNat ld dp.toNat n.toNat))
          else none
        | _ => none
      | _, _, _, _, _ => none
    else none
  | _, _, _ => none

/-- The condition of an `If` as an evaluated boolean. -/
def condVal : Option Val → Option Bool
  | some (.b y) => some y
  | _ => none

mutual
/-- Execution of one statement of the fragment; constructs the array lowering
does not emit are outside the fragment (`none`). -/
def execStmt (copyFn : Nat) (σ : State) : JStmt → Option State
  | .letS _ t v x => execLet σ t v x
  | .set lv op x => execSet σ lv op x
  | .term x =>
    match evalTerm σ x with
    | some _ => some σ
    | none => none
  | .ifS c a b =>
    match condVal (evalTerm σ c) with
    | some y => if y then execStmts copyFn σ a else execStmts copyFn σ b
    | none => none
  | .multiCall o f args rets => execArrayCopy copyFn σ o f args rets
  | _ => none

/-- Sequential execution. -/
def execStmts (copyFn : Nat) (σ : State) : List JStmt → Option State
  | [] => some σ
  | s :: rest =>
    match execStmt copyFn σ s with
    | some σ1 => execStmts copyFn σ1 rest
    | none => none
end

/-- Modelled from `ArrayMethod` in the missing `term.rs`, as used by
`Term::lower`: `len`, `clear`, `pop`, and `push`.  The `push` payload carries
the flattened list of already-lowered argument components
(`x.lower(cxt)`); statements that lowering may have pushed for the argument
itself are not represented. -/
inductive AMethod where
  | len
  | clear
  | pop
  | push (xs : List JTerm)

/-- The per-component loop of the `Push` case (backend.rs lines 1550-1600):
for each `(component array term, pushed component)` pair, the growth block
spills `$_old_array`, reassigns the component to `new T[old.length * 2]` and
calls the array-copy intrinsic; the second block stores the component at
`len - 1`.  Fresh `$_old_array` variables come from the bumped counter. -/
def pushLoop (copyFn : Nat) (lenT : JTerm) :
    List (JTerm × JTerm) → Nat → Option (List JStmt × List JStmt × Nat)
  | [], next => some ([], [], next)
  | (arrT, x) :: rest, next =>
    match arrT.to_lval with
    | none => none
    | some sarr =>
      let old : JVar := ⟨next + 1, false⟩
      let capT := JTerm.prop (JTerm.var old arrT.ty) (JProp.raw "length") JTy.i32
      let new_cap := JTerm.binop .mul capT (JTerm.lit (JLit.int 2))
      let s1 := JStmt.letS "$_old_array" arrT.ty old (some arrT)
      let s2 := JStmt.set sarr none (JTerm.arrayNew new_cap arrT.ty)
      let s3 := JStmt.multiCall none copyFn
        [JTerm.var old arrT.ty, JTerm.lit (JLit.int 0), arrT,
          JTerm.lit (JLit.int 0), capT] []
      let idx := JTerm.binop .sub lenT (JTerm.lit (JLit.int 1))
      let s4 := JStmt.set (JLVal.idx sarr idx) none x
      match pushLoop copyFn lenT rest (next + 1) with
      | none => none
      | some (b1, b2, n2) => some (s1 :: s2 :: s3 :: b1, s4 :: b2, n2)

/-- The `Term::ArrayMethod` case of `Term::lower` (backend.rs lines
1495-1607).  `arrs` is the lowered array pair (data components followed by the
`i32` length component); panics (`unwrap`/`expect`/`assert_eq!`) are `none`.
Returns the pushed statements, the result components, and the counter. -/
def lowerArrayMethod (copyFn : Nat) (arrs : List JTerm) (m : AMethod)
    (next : Nat) : Option (List JStmt × List JTerm × Nat) :=
  match arrs.getLast? with
  | none => none
  | some lenT =>
    match m with
    | .len => some ([], [lenT], next)
    | .clear =>
      match lenT.to_lval with
      | none => none
      | some slen =>
        some ([JStmt.set slen none (JTerm.lit (JLit.int 0))], [], next)
    | .pop =>
      match lenT.to_lval with
      | none => none
      | some slen =>
        let stmt := JStmt.set slen (some .sub) (JTerm.lit (JLit.int 1))
        let n := arrs.length - 1
        match (arrs.take n).mapM (fun x =>
            match x.ty with
            | JTy.array t => some (JTerm.index x lenT t)
            | _ => none) with
        | none => none
        | some rets => some ([stmt], rets, next)
    | .push xs =>
      match lenT.to_lval with
      | none => none
      | some slen =>
        let s0 := JStmt.set slen (some .add) (JTerm.lit (JLit.int 1))
        if xs.length = arrs.length - 1 then
          if arrs.length ≠ 1 then
            match arrs.head? with
            | none => none
            | some a0 =>
              let cap := JTerm.prop a0 (JProp.raw "length") JTy.i32
              let too_small := JTerm.binop .gt lenT cap
              match pushLoop copyFn lenT (arrs.zip xs) next with
              | none => none
              | some (blk, blk2, n2) =>
                some (s0 :: JStmt.ifS too_small blk [] :: blk2, [], n2)
          else some ([s0], [], next)
        else none

theorem setVar_same (σ : State) (k : Nat) (v : Val) :
    setVar σ k v k = some v := by
  simp [setVar]

theorem setVar_other (σ : State) (k : Nat) (v : Val) (k' : Nat)
    (h : k' ≠ k) : setVar σ k v k' = σ k' := by
  simp [setVar, h]

theorem execStmts_cons (copyFn : Nat) (σ σ1 : State) (s : JStmt)
    (rest : List JStmt) (h : execStmt copyFn σ s = some σ1) :
    execStmts copyFn σ (s :: rest) = execStmts copyFn σ1 rest := by
  simp only [execStmts, h]

/-- Execution of the lowered `push(x)` statements on a full single-component
dynamic array held in variables: the increment comes first, the capacity
check compares the new length against the backing array's `length` property,
the capacity doubles, elements are preserved and `x` lands at index
`pre-length`.  Bounds assumptions keep Java's 32-bit arithmetic exact. -/
theorem push_grow_exec
    (copyFn a l cnt : Nat) (pa pl : Bool) (ty : JTy) (x : JTerm) (vx : Val)
    (arr0 : List Val) (len0 : Int) (σ : State)
    (hx : ∀ s : State, evalTerm s x = some vx)
    (hal : a ≠ l) (ha : a ≤ cnt) (hl : l ≤ cnt)
    (hσa : σ a = some (.arr arr0)) (hσl : σ l = some (.i32 len0))
    (hfull : len0 = (arr0.length : Int))
    (h1 : 1 ≤ arr0.length) (hbound : 2 * arr0.length < 2 ^ 31) :
    lowerArrayMethod copyFn
        [JTerm.var ⟨a, pa⟩ (JTy.array ty), JTerm.var ⟨l, pl⟩ JTy.i32]
        (.push [x]) cnt =
      some ([JStmt.set (JLVal.var ⟨l, pl⟩) (some .add) (JTerm.lit (JLit.int 1)),
        JStmt.ifS (JTerm.binop .gt (JTerm.var ⟨l, pl⟩ JTy.i32)
            (JTerm.prop (JTerm.var ⟨a, pa⟩ (JTy.array ty))
              (JProp.raw "length") JTy.i32))
          [JStmt.letS "$_old_array" (JTy.array ty) ⟨cnt + 1, false⟩
              (some (JTerm.var ⟨a, pa⟩ (JTy.array ty))),
            JStmt.set (JLVal.var ⟨a, pa⟩) none
              (JTerm.arrayNew (JTerm.binop .mul
                  (JTerm.prop (JTerm.var ⟨cnt + 1, false⟩ (JTy.array ty))
                    (JProp.raw "length") JTy.i32)
                  (JTerm.lit (JLit.int 2))) (JTy.array ty)),
            JStmt.multiCall none copyFn
              [JTerm.var ⟨cnt + 1, false⟩ (JTy.array ty),
                JTerm.lit (JLit.int 0),
                JTerm.var ⟨a, pa⟩ (JTy.array ty),
                JTerm.lit (JLit.int 0),
                JTerm.prop (JTerm.var ⟨cnt + 1, false⟩ (JTy.array ty))
                  (JProp.raw "length") JTy.i32] []] [],
        JStmt.set (JLVal.idx (JLVal.var ⟨a, pa⟩)
            (JTerm.binop .sub (JTerm.var ⟨l, pl⟩ JTy.i32)
              (JTerm.lit (JLit.int 1)))) none x],
        [], cnt + 1) ∧
    ∃ (σ2 : State) (arr1 : List Val),
      execStmts copyFn σ
        [JStmt.set (JLVal.var ⟨l, pl⟩) (some .add) (JTerm.lit (JLit.int 1)),
          JStmt.ifS (JTerm.binop .gt (JTerm.var ⟨l, pl⟩ JTy.i32)
              (JTerm.prop (JTerm.var ⟨a, pa⟩ (JTy.array ty))
                (JProp.raw "length") JTy.i32))
            [JStmt.letS "$_old_array" (JTy.array ty) ⟨cnt + 1, false⟩
                (some (JTerm.var ⟨a, pa⟩ (JTy.array ty))),
              JStmt.set (JLVal.var ⟨a, pa⟩) none
                (JTerm.arrayNew (JTerm.binop .mul
                    (JTerm.prop (JTerm.var ⟨cnt + 1, false⟩ (JTy.array ty))
                      (JProp.raw "length") JTy.i32)
                    (JTerm.lit (JLit.int 2))) (JTy.array ty)),
              JStmt.multiCall none copyFn
                [JTerm.var ⟨cnt + 1, false⟩ (JTy.array ty),
                  JTerm.lit (JLit.int 0),
                  JTerm.var ⟨a, pa⟩ (JTy.array ty),
                  JTerm.lit (JLit.int 0),
                  JTerm.prop (JTerm.var ⟨cnt + 1, false⟩ (JTy.array ty))
                    (JProp.raw "length") JTy.i32] []] [],
          JStmt.set (JLVal.idx (JLVal.var ⟨a, pa⟩)
              (JTerm.binop .sub (JTerm.var ⟨l, pl⟩ JTy.i32)
                (JTerm.lit (JLit.int 1)))) none x] = some σ2 ∧
      σ2 a = some (.arr arr1) ∧
      arr1.length = 2 * arr0.length ∧
      (∀ i, i < arr0.length → arr1[i]? = arr0[i]?) ∧
      arr1[arr0.length]? = some vx ∧
      σ2 l = some (.i32 (len0 + 1)) := by
  refine ⟨rfl, ?_⟩
  have hwadd : wrap32 (len0 + 1) = len0 + 1 := by unfold wrap32; omega
  have hwsub : wrap32 (len0 + 1 - 1) = len0 := by unfold wrap32; omega
  have hwmul : wrap32 ((arr0.length : Int) * 2) = (arr0.length : Int) * 2 := by
    unfold wrap32; omega
  have htn2 : ((arr0.length : Int) * 2).toNat = arr0.length * 2 := by omega
  have htn : ((arr0.length : Int)).toNat = arr0.length := by omega
  set d := defaultVal ty with hd
  set σ1 := setVar σ l (.i32 (len0 + 1)) with hσ1
  set σA := setVar σ1 (cnt + 1) (.arr arr0) with hσA
  set newArr := List.replicate (arr0.length * 2) d with hnew
  set σB := setVar σA a (.arr newArr) with hσB
  set copied := arr0 ++ List.replicate (arr0.length * 2 - arr0.length) d
    with hcop
  set σC := setVar σB a (.arr copied) with hσC
  set arr1 := copied.set arr0.length vx with harr1
  set σD := setVar σC a (.arr arr1) with hσD
  have hσ1l : σ1 l = some (.i32 (len0 + 1)) := setVar_same _ _ _
  have hσ1a : σ1 a = some (.arr arr0) := by
    rw [hσ1, setVar_other _ _ _ _ hal, hσa]
  have e0 : execStmt copyFn σ
      (JStmt.set (JLVal.var ⟨l, pl⟩) (some .add) (JTerm.lit (JLit.int 1))) =
      some σ1 := by
    simp [execStmt, execSet, evalTerm, evalLit, readLVal, evalBinOp,
      writeLVal, hσl, hwadd, hσ1]
  have eL1 : execStmt copyFn σ1
      (JStmt.letS "$_old_array" (JTy.array ty) ⟨cnt + 1, false⟩
        (some (JTerm.var ⟨a, pa⟩ (JTy.array ty)))) = some σA := by
    simp [execStmt, execLet, evalTerm, hσ1a, hσA]
  have hσAo : σA (cnt + 1) = some (.arr arr0) := setVar_same _ _ _
  have eS2 : execStmt copyFn σA
      (JStmt.set (JLVal.var ⟨a, pa⟩) none
        (JTerm.arrayNew (JTerm.binop .mul
            (JTerm.prop (JTerm.var ⟨cnt + 1, false⟩ (JTy.array ty))
              (JProp.raw "length") JTy.i32)
            (JTerm.lit (JLit.int 2))) (JTy.array ty))) = some σB := by
    simp [execStmt, execSet, evalTerm, evalLit, hσAo, lengthVal, binopVal,
      evalBinOp, hwmul, arrayNewVal, writeLVal, hσB, htn2,
      (by omega : (0 : Int) ≤ (arr0.length : Int) * 2), hnew]
  have hσBo : σB (cnt + 1) = some (.arr arr0) := by
    rw [hσB, setVar_other _ _ _ _ (by omega : cnt + 1 ≠ a), hσAo]
  have hσBa : σB a = some (.arr newArr) := setVar_same _ _ _
  have hcopy : arraycopyList arr0 0 newArr 0 arr0.length = copied := by
    rw [arraycopyList, hcop, hnew]
    simp [List.drop_replicate]
  have eS3 : execStmt copyFn σB
      (JStmt.multiCall none copyFn
        [JTerm.var ⟨cnt + 1, false⟩ (JTy.array ty),
          JTerm.lit (JLit.int 0),
          JTerm.var ⟨a, pa⟩ (JTy.array ty),
          JTerm.lit (JLit.int 0),
          JTerm.prop (JTerm.var ⟨cnt + 1, false⟩ (JTy.array ty))
            (JProp.raw "length") JTy.i32] []) = some σC := by
    have htn_aux : (Int.ofNat arr0.length).toNat = arr0.length := rfl
    rw [execStmt, execArrayCopy]
    rw [if_pos rfl]
    simp only [evalTerm, evalLit, hσBo, lengthVal, JTerm.to_lval, hσBa,
      readLVal, if_pos rfl]
    simp only [if_true, htn_aux]
    rw [show readLVal σB (JLVal.var ⟨a, pa⟩) = σB a from rfl, hσBa]
    simp only []
    rw [if_pos (by
      refine ⟨le_refl _, le_refl _, by omega, by simp, ?_⟩
      simp [hnew, List.length_replicate]
      omega)]
    simp only [writeLVal]
    rw [hσC, ← hcopy]
    rfl
  have hσCl : σC l = some (.i32 (len0 + 1)) := by
    rw [hσC, setVar_other _ _ _ _ (fun h => hal h.symm), hσB,
      setVar_other _ _ _ _ (fun h => hal h.symm), hσA,
      setVar_other _ _ _ _ (by omega : l ≠ cnt + 1), hσ1l]
  have hσCa : σC a = some (.arr copied) := setVar_same _ _ _
  have hcoplen : copied.length = arr0.length * 2 := by
    rw [hcop]
    simp [List.length_replicate]
    omega
  have eS4 : execStmt copyFn σC
      (JStmt.set (JLVal.idx (JLVal.var ⟨a, pa⟩)
        (JTerm.binop .sub (JTerm.var ⟨l, pl⟩ JTy.i32)
          (JTerm.lit (JLit.int 1)))) none x) = some σD := by
    rw [execStmt, execSet]
    simp only [hx σC, evalTerm, evalLit, binopVal, evalBinOp, hσCl, hwsub,
      writeLVal, readLVal, hσCa, setIdx]
    rw [if_pos (by
      constructor
      · omega
      · rw [hfull, htn, hcoplen]; omega)]
    rw [hfull, htn]
  have hexec : execStmts copyFn σ
      [JStmt.set (JLVal.var ⟨l, pl⟩) (some .add) (JTerm.lit (JLit.int 1)),
        JStmt.ifS (JTerm.binop .gt (JTerm.var ⟨l, pl⟩ JTy.i32)
            (JTerm.prop (JTerm.var ⟨a, pa⟩ (JTy.array ty))
              (JProp.raw "length") JTy.i32))
          [JStmt.letS "$_old_array" (JTy.array ty) ⟨cnt + 1, false⟩
              (some (JTerm.var ⟨a, pa⟩ (JTy.array ty))),
            JStmt.set (JLVal.var ⟨a, pa⟩) none
              (JTerm.arrayNew (JTerm.binop .mul
                  (JTerm.prop (JTerm.var ⟨cnt + 1, false⟩ (JTy.array ty))
                    (JProp.raw "length") JTy.i32)
                  (JTerm.lit (JLit.int 2))) (JTy.array ty)),
            JStmt.multiCall none copyFn
              [JTerm.var ⟨cnt + 1, false⟩ (JTy.array ty),
                JTerm.lit (JLit.int 0),
                JTerm.var ⟨a, pa⟩ (JTy.array ty),
                JTerm.lit (JLit.int 0),
                JTerm.prop (JTerm.var ⟨cnt + 1, false⟩ (JTy.array ty))
                  (JProp.raw "length") JTy.i32] []] [],
        JStmt.set (JLVal.idx (JLVal.var ⟨a, pa⟩)
            (JTerm.binop .sub (JTerm.var ⟨l, pl⟩ JTy.i32)
              (JTerm.lit (JLit.int 1)))) none x] = some σD := by
    rw [execStmts_cons _ _ _ _ _ e0]
    have eIF : execStmt copyFn σ1
        (JStmt.ifS (JTerm.binop .gt (JTerm.var ⟨l, pl⟩ JTy.i32)
            (JTerm.prop (JTerm.var ⟨a, pa⟩ (JTy.array ty))
              (JProp.raw "length") JTy.i32))
          [JStmt.letS "$_old_array" (JTy.array ty) ⟨cnt + 1, false⟩
              (some (JTerm.var ⟨a, pa⟩ (JTy.array ty))),
            JStmt.set (JLVal.var ⟨a, pa⟩) none
              (JTerm.arrayNew (JTerm.binop .mul
                  (JTerm.prop (JTerm.var ⟨cnt + 1, false⟩ (JTy.array ty))
                    (JProp.raw "length") JTy.i32)
                  (JTerm.lit (JLit.int 2))) (JTy.array ty)),
            JStmt.multiCall none copyFn
              [JTerm.var ⟨cnt + 1, false⟩ (JTy.array ty),
                JTerm.lit (JLit.int 0),
                JTerm.var ⟨a, pa⟩ (JTy.array ty),
                JTerm.lit (JLit.int 0),
                JTerm.prop (JTerm.var ⟨cnt + 1, false⟩ (JTy.array ty))
                  (JProp.raw "length") JTy.i32] []] []) = some σC := by
      have hcond : evalTerm σ1
          (JTerm.binop .gt (JTerm.var ⟨l, pl⟩ JTy.i32)
            (JTerm.prop (JTerm.var ⟨a, pa⟩ (JTy.array ty))
              (JProp.raw "length") JTy.i32)) = some (.b true) := by
        simp only [evalTerm, evalLit, hσ1l, hσ1a, lengthVal, binopVal,
          evalBinOp, Int.ofNat_eq_natCast, if_pos rfl, if_true,
          Option.some.injEq, Val.b.injEq, decide_eq_true_eq]
        omega
      rw [execStmt, hcond]
      show execStmts copyFn σ1
        [JStmt.letS "$_old_array" (JTy.array ty) ⟨cnt + 1, false⟩
            (some (JTerm.var ⟨a, pa⟩ (JTy.array ty))),
          JStmt.set (JLVal.var ⟨a, pa⟩) none
            (JTerm.arrayNew (JTerm.binop .mul
                (JTerm.prop (JTerm.var ⟨cnt + 1, false⟩ (JTy.array ty))
                  (JProp.raw "length") JTy.i32)
                (JTerm.lit (JLit.int 2))) (JTy.array ty)),
          JStmt.multiCall none copyFn
            [JTerm.var ⟨cnt + 1, false⟩ (JTy.array ty),
              JTerm.lit (JLit.int 0),
              JTerm.var ⟨a, pa⟩ (JTy.array ty),
              JTerm.lit (JLit.int 0),
              JTerm.prop (JTerm.var ⟨cnt + 1, false⟩ (JTy.array ty))
                (JProp.raw "length") JTy.i32] []] = some σC
      rw [execStmts_cons _ _ _ _ _ eL1, execStmts_cons _ _ _ _ _ eS2,
        execStmts_cons _ _ _ _ _ eS3]
      rfl
    rw [execStmts_cons _ _ _ _ _ eIF, execStmts_cons _ _ _ _ _ eS4]
    rfl
  refine ⟨σD, arr1, hexec, setVar_same _ _ _, ?_, ?_, ?_, ?_⟩
  · rw [harr1]
    simp [hcoplen]
    omega
  · intro i hi
    rw [harr1, List.getElem?_set_ne (by omega), hcop,
      List.getElem?_append]
    rw [if_pos hi]
  · rw [harr1, List.getElem?_set_self (by rw [hcoplen]; omega)]
  · rw [hσD, setVar_other _ _ _ _ (fun h => hal h.symm), hσCl]

/-- C2: a lowered `push(x)` on a dynamic array held in variables whose
pre-state has `length = capacity` first increments the length, then checks
the new length against the backing array's `length` property, and on
overflow doubles the capacity, preserves elements `0..pre-length-1`, and
stores `x` at index `pre-length`; the post-state length is `pre-length + 1`. -/
theorem push_doubles_capacity
    (copyFn a l cnt : Nat) (pa pl : Bool) (ty : JTy) (x : JTerm) (vx : Val)
    (arr0 : List Val) (len0 : Int) (σ : State)
    (hx : ∀ s : State, evalTerm s x = some vx)
    (hal : a ≠ l) (ha : a ≤ cnt) (hl : l ≤ cnt)
    (hσa : σ a = some (.arr arr0)) (hσl : σ l = some (.i32 len0))
    (hfull : len0 = (arr0.length : Int))
    (h1 : 1 ≤ arr0.length) (hbound : 2 * arr0.length < 2 ^ 31) :
    lowerArrayMethod copyFn
        [JTerm.var ⟨a, pa⟩ (JTy.array ty), JTerm.var ⟨l, pl⟩ JTy.i32]
        (.push [x]) cnt =
      some ([JStmt.set (JLVal.var ⟨l, pl⟩) (some .add) (JTerm.lit (JLit.int 1)),
        JStmt.ifS (JTerm.binop .gt (JTerm.var ⟨l, pl⟩ JTy.i32)
            (JTerm.prop (JTerm.var ⟨a, pa⟩ (JTy.array ty))
              (JProp.raw "length") JTy.i32))
          [JStmt.letS "$_old_array" (JTy.array ty) ⟨cnt + 1, false⟩
              (some (JTerm.var ⟨a, pa⟩ (JTy.array ty))),
            JStmt.set (JLVal.var ⟨a, pa⟩) none
              (JTerm.arrayNew (JTerm.binop .mul
                  (JTerm.prop (JTerm.var ⟨cnt + 1, false⟩ (JTy.array ty))
                    (JProp.raw "length") JTy.i32)
                  (JTerm.lit (JLit.int 2))) (JTy.array ty)),
            JStmt.multiCall none copyFn
              [JTerm.var ⟨cnt + 1, false⟩ (JTy.array ty),
                JTerm.lit (JLit.int 0),
                JTerm.var ⟨a, pa⟩ (JTy.array ty),
                JTerm.lit (JLit.int 0),
                JTerm.prop (JTerm.var ⟨cnt + 1, false⟩ (JTy.array ty))
                  (JProp.raw "length") JTy.i32] []] [],
        JStmt.set (JLVal.idx (JLVal.var ⟨a, pa⟩)
            (JTerm.binop .sub (JTerm.var ⟨l, pl⟩ JTy.i32)
              (JTerm.lit (JLit.int 1)))) none x],
        [], cnt + 1) ∧
    ∃ (σ2 : State) (arr1 : List Val),
      execStmts copyFn σ
        [JStmt.set (JLVal.var ⟨l, pl⟩) (some .add) (JTerm.lit (JLit.int 1)),
          JStmt.ifS (JTerm.binop .gt (JTerm.var ⟨l, pl⟩ JTy.i32)
              (JTerm.prop (JTerm.var ⟨a, pa⟩ (JTy.array ty))
                (JProp.raw "length") JTy.i32))
            [JStmt.letS "$_old_array" (JTy.array ty) ⟨cnt + 1, false⟩
                (some (JTerm.var ⟨a, pa⟩ (JTy.array ty))),
              JStmt.set (JLVal.var ⟨a, pa⟩) none
                (JTerm.arrayNew (JTerm.binop .mul
                    (JTerm.prop (JTerm.var ⟨cnt + 1, false⟩ (JTy.array ty))
                      (JProp.raw "length") JTy.i32)
                    (JTerm.lit (JLit.int 2))) (JTy.array ty)),
              JStmt.multiCall none copyFn
                [JTerm.var ⟨cnt + 1, false⟩ (JTy.array ty),
                  JTerm.lit (JLit.int 0),
                  JTerm.var ⟨a, pa⟩ (JTy.array ty),
                  JTerm.lit (JLit.int 0),
                  JTerm.prop (JTerm.var ⟨cnt + 1, false⟩ (JTy.array ty))
                    (JProp.raw "length") JTy.i32] []] [],
          JStmt.set (JLVal.idx (JLVal.var ⟨a, pa⟩)
              (JTerm.binop .sub (JTerm.var ⟨l, pl⟩ JTy.i32)
                (JTerm.lit (JLit.int 1)))) none x] = some σ2 ∧
      σ2 a = some (.arr arr1) ∧
      arr1.length = 2 * arr0.length ∧
      (∀ i, i < arr0.length → arr1[i]? = arr0[i]?) ∧
      arr1[arr0.length]? = some vx ∧
      σ2 l = some (.i32 (len0 + 1)) :=
  push_grow_exec copyFn a l cnt pa pl ty x vx arr0 len0 σ hx hal ha hl hσa
    hσl hfull h1 hbound

theorem push_doubles_capacity_witness :
    lowerArrayMethod 99
        [JTerm.var ⟨1, false⟩ (JTy.array JTy.i32),
          JTerm.var ⟨2, false⟩ JTy.i32]
        (.push [JTerm.lit (JLit.int 7)]) 5 =
      some ([JStmt.set (JLVal.var ⟨2, false⟩) (some .add) (JTerm.lit (JLit.int 1)),
        JStmt.ifS (JTerm.binop .gt (JTerm.var ⟨2, false⟩ JTy.i32)
            (JTerm.prop (JTerm.var ⟨1, false⟩ (JTy.array JTy.i32))
              (JProp.raw "length") JTy.i32))
          [JStmt.letS "$_old_array" (JTy.array JTy.i32) ⟨6, false⟩
              (some (JTerm.var ⟨1, false⟩ (JTy.array JTy.i32))),
            JStmt.set (JLVal.var ⟨1, false⟩) none
              (JTerm.arrayNew (JTerm.binop .mul
                  (JTerm.prop (JTerm.var ⟨6, false⟩ (JTy.array JTy.i32))
                    (JProp.raw "length") JTy.i32)
                  (JTerm.lit (JLit.int 2))) (JTy.array JTy.i32)),
            JStmt.multiCall none 99
              [JTerm.var ⟨6, false⟩ (JTy.array JTy.i32),
                JTerm.lit (JLit.int 0),
                JTerm.var ⟨1, false⟩ (JTy.array JTy.i32),
                JTerm.lit (JLit.int 0),
                JTerm.prop (JTerm.var ⟨6, false⟩ (JTy.array JTy.i32))
                  (JProp.raw "length") JTy.i32] []] [],
        JStmt.set (JLVal.idx (JLVal.var ⟨1, false⟩)
            (JTerm.binop .sub (JTerm.var ⟨2, false⟩ JTy.i32)
              (JTerm.lit (JLit.int 1)))) none (JTerm.lit (JLit.int 7))],
        [], 6) :=
  (push_doubles_capacity 99 1 2 5 false false JTy.i32
      (JTerm.lit (JLit.int 7)) (.i32 7) [.i32 3] 1
      (fun k => if k = 1 then some (.arr [.i32 3])
        else if k = 2 then some (.i32 1) else none)
      (fun _ => rfl) (by decide) (by decide) (by decide) rfl rfl (by decide)
      (by decide) (by decide)).1

/-- C3: every lowered dynamic-array operation preserves the
(parallel arrays, i32 length) pair: `len` returns the length component and
emits nothing, `clear` stores literal 0 into the length, `pop` decrements the
length through a compound `-=` and reads each data component at the new
length, and a non-growing `push` increments the length by exactly 1 and
stores the pushed value without changing the backing array's capacity. -/
theorem array_ops_pair_shape :
    (∀ (copyFn next : Nat) (arrs : List JTerm) (h : arrs ≠ []),
      lowerArrayMethod copyFn arrs .len next =
        some ([], [arrs.getLast h], next)) ∧
    (∀ (copyFn next l : Nat) (pl : Bool) (data : List JTerm) (σ : State),
      lowerArrayMethod copyFn (data ++ [JTerm.var ⟨l, pl⟩ JTy.i32]) .clear
          next =
        some ([JStmt.set (JLVal.var ⟨l, pl⟩) none (JTerm.lit (JLit.int 0))],
          [], next) ∧
      ∃ σ2, execStmts copyFn σ
          [JStmt.set (JLVal.var ⟨l, pl⟩) none (JTerm.lit (JLit.int 0))] =
            some σ2 ∧
        σ2 l = some (.i32 0) ∧ ∀ k, k ≠ l → σ2 k = σ k) ∧
    (∀ (copyFn next a l : Nat) (pa pl : Bool) (ty : JTy) (arr0 : List Val)
        (len0 : Int) (σ : State),
      a ≠ l → σ a = some (.arr arr0) → σ l = some (.i32 len0) →
      1 ≤ len0 → len0 ≤ (arr0.length : Int) → arr0.length < 2 ^ 31 →
      lowerArrayMethod copyFn
          [JTerm.var ⟨a, pa⟩ (JTy.array ty), JTerm.var ⟨l, pl⟩ JTy.i32]
          .pop next =
        some ([JStmt.set (JLVal.var ⟨l, pl⟩) (some .sub)
            (JTerm.lit (JLit.int 1))],
          [JTerm.index (JTerm.var ⟨a, pa⟩ (JTy.array ty))
            (JTerm.var ⟨l, pl⟩ JTy.i32) ty], next) ∧
      ∃ σ2, execStmts copyFn σ
          [JStmt.set (JLVal.var ⟨l, pl⟩) (some .sub)
            (JTerm.lit (JLit.int 1))] = some σ2 ∧
        σ2 l = some (.i32 (len0 - 1)) ∧ σ2 a = some (.arr arr0) ∧
        evalTerm σ2 (JTerm.index (JTerm.var ⟨a, pa⟩ (JTy.array ty))
            (JTerm.var ⟨l, pl⟩ JTy.i32) ty) = arr0[(len0 - 1).toNat]?) ∧
    (∀ (copyFn a l cnt : Nat) (pa pl : Bool) (ty : JTy) (x : JTerm) (vx : Val)
        (arr0 : List Val) (len0 : Int) (σ : State),
      (∀ s : State, evalTerm s x = some vx) → a ≠ l → a ≤ cnt → l ≤ cnt →
      σ a = some (.arr arr0) → σ l = some (.i32 len0) →
      0 ≤ len0 → len0 < (arr0.length : Int) → arr0.length < 2 ^ 31 →
      ∃ stmts n2 σ2,
        lowerArrayMethod copyFn
            [JTerm.var ⟨a, pa⟩ (JTy.array ty), JTerm.var ⟨l, pl⟩ JTy.i32]
            (.push [x]) cnt = some (stmts, [], n2) ∧
        execStmts copyFn σ stmts = some σ2 ∧
        σ2 l = some (.i32 (len0 + 1)) ∧
        σ2 a = some (.arr (arr0.set len0.toNat vx)) ∧
        (arr0.set len0.toNat vx).length = arr0.length) ∧
    (∀ (copyFn a l cnt : Nat) (pa pl : Bool) (ty : JTy) (x : JTerm) (vx : Val)
        (arr0 : List Val) (len0 : Int) (σ : State),
      (∀ s : State, evalTerm s x = some vx) → a ≠ l → a ≤ cnt → l ≤ cnt →
      σ a = some (.arr arr0) → σ l = some (.i32 len0) →
      len0 = (arr0.length : Int) → 1 ≤ arr0.length →
      2 * arr0.length < 2 ^ 31 →
      ∃ stmts n2 σ2 arr1,
        lowerArrayMethod copyFn
            [JTerm.var ⟨a, pa⟩ (JTy.array ty), JTerm.var ⟨l, pl⟩ JTy.i32]
            (.push [x]) cnt = some (stmts, [], n2) ∧
        execStmts copyFn σ stmts = some σ2 ∧
        σ2 l = some (.i32 (len0 + 1)) ∧ σ2 a = some (.arr arr1)) := by
  refine ⟨?_, ?_, ?_, ?_, ?_⟩
  · intro copyFn next arrs h
    rw [lowerArrayMethod, List.getLast?_eq_getLast arrs h]
  · intro copyFn next l pl data σ
    constructor
    · rw [lowerArrayMethod]
      rw [List.getLast?_concat]
      rfl
    · refine ⟨setVar σ l (.i32 0), ?_, setVar_same _ _ _, ?_⟩
      · rfl
      · intro k hk
        exact setVar_other _ _ _ _ hk
  · intro copyFn next a l pa pl ty arr0 len0 σ hal hσa hσl hge hle hb
    have hwsub : wrap32 (len0 - 1) = len0 - 1 := by unfold wrap32; omega
    constructor
    · rfl
    · refine ⟨setVar σ l (.i32 (len0 - 1)), ?_, setVar_same _ _ _, ?_, ?_⟩
      · have e : execStmt copyFn σ
            (JStmt.set (JLVal.var ⟨l, pl⟩) (some .sub)
              (JTerm.lit (JLit.int 1))) =
            some (setVar σ l (.i32 (len0 - 1))) := by
          simp [execStmt, execSet, evalTerm, evalLit, readLVal, evalBinOp,
            writeLVal, hσl, hwsub]
        rw [execStmts_cons _ _ _ _ _ e]
        rfl
      · rw [setVar_other _ _ _ _ hal, hσa]
      · rw [evalTerm]
        rw [show evalTerm (setVar σ l (.i32 (len0 - 1)))
            (JTerm.var ⟨a, pa⟩ (JTy.array ty)) =
          setVar σ l (.i32 (len0 - 1)) a from rfl]
        rw [setVar_other _ _ _ _ hal, hσa]
        rw [show evalTerm (setVar σ l (.i32 (len0 - 1)))
            (JTerm.var ⟨l, pl⟩ JTy.i32) =
          setVar σ l (.i32 (len0 - 1)) l from rfl]
        rw [setVar_same]
        simp only [indexVal]
        rw [if_pos (by omega)]
  · intro copyFn a l cnt pa pl ty x vx arr0 len0 σ hx hal ha hl hσa hσl
      hge hlt hb
    have hwadd : wrap32 (len0 + 1) = len0 + 1 := by unfold wrap32; omega
    have hwsub : wrap32 (len0 + 1 - 1) = len0 := by unfold wrap32; omega
    set σ1 := setVar σ l (.i32 (len0 + 1)) with hσ1
    have hσ1l : σ1 l = some (.i32 (len0 + 1)) := setVar_same _ _ _
    have hσ1a : σ1 a = some (.arr arr0) := by
      rw [hσ1, setVar_other _ _ _ _ hal, hσa]
    set σ2 := setVar σ1 a (.arr (arr0.set len0.toNat vx)) with hσ2
    refine ⟨[JStmt.set (JLVal.var ⟨l, pl⟩) (some .add) (JTerm.lit (JLit.int 1)),
      JStmt.ifS (JTerm.binop .gt (JTerm.var ⟨l, pl⟩ JTy.i32)
          (JTerm.prop (JTerm.var ⟨a, pa⟩ (JTy.array ty))
            (JProp.raw "length") JTy.i32))
        [JStmt.letS "$_old_array" (JTy.array ty) ⟨cnt + 1, false⟩
            (some (JTerm.var ⟨a, pa⟩ (JTy.array ty))),
          JStmt.set (JLVal.var ⟨a, pa⟩) none
            (JTerm.arrayNew (JTerm.binop .mul
                (JTerm.prop (JTerm.var ⟨cnt + 1, false⟩ (JTy.array ty))
                  (JProp.raw "length") JTy.i32)
                (JTerm.lit (JLit.int 2))) (JTy.array ty)),
          JStmt.multiCall none copyFn
            [JTerm.var ⟨cnt + 1, false⟩ (JTy.array ty),
              JTerm.lit (JLit.int 0),
              JTerm.var ⟨a, pa⟩ (JTy.array ty),
              JTerm.lit (JLit.int 0),
              JTerm.prop (JTerm.var ⟨cnt + 1, false⟩ (JTy.array ty))
                (JProp.raw "length") JTy.i32] []] [],
      JStmt.set (JLVal.idx (JLVal.var ⟨a, pa⟩)
          (JTerm.binop .sub (JTerm.var ⟨l, pl⟩ JTy.i32)
            (JTerm.lit (JLit.int 1)))) none x],
      cnt + 1, σ2, rfl, ?_, ?_, setVar_same _ _ _, ?_⟩
    · have e0 : execStmt copyFn σ
          (JStmt.set (JLVal.var ⟨l, pl⟩) (some .add)
            (JTerm.lit (JLit.int 1))) = some σ1 := by
        simp [execStmt, execSet, evalTerm, evalLit, readLVal, evalBinOp,
          writeLVal, hσl, hwadd, hσ1]
      rw [execStmts_cons _ _ _ _ _ e0]
      have hcond : evalTerm σ1
          (JTerm.binop .gt (JTerm.var ⟨l, pl⟩ JTy.i32)
            (JTerm.prop (JTerm.var ⟨a, pa⟩ (JTy.array ty))
              (JProp.raw "length") JTy.i32)) = some (.b false) := by
        simp only [evalTerm, evalLit, hσ1l, hσ1a, lengthVal, binopVal,
          evalBinOp, Int.ofNat_eq_natCast, if_pos rfl, if_true,
          Option.some.injEq, Val.b.injEq, decide_eq_false_iff_not]
        omega
      have eIF : execStmt copyFn σ1
          (JStmt.ifS (JTerm.binop .gt (JTerm.var ⟨l, pl⟩ JTy.i32)
              (JTerm.prop (JTerm.var ⟨a, pa⟩ (JTy.array ty))
                (JProp.raw "length") JTy.i32))
            [JStmt.letS "$_old_array" (JTy.array ty) ⟨cnt + 1, false⟩
                (some (JTerm.var ⟨a, pa⟩ (JTy.array ty))),
              JStmt.set (JLVal.var ⟨a, pa⟩) none
                (JTerm.arrayNew (JTerm.binop .mul
                    (JTerm.prop (JTerm.var ⟨cnt + 1, false⟩ (JTy.array ty))
                      (JProp.raw "length") JTy.i32)
                    (JTerm.lit (JLit.int 2))) (JTy.array ty)),
              JStmt.multiCall none copyFn
                [JTerm.var ⟨cnt + 1, false⟩ (JTy.array ty),
                  JTerm.lit (JLit.int 0),
                  JTerm.var ⟨a, pa⟩ (JTy.array ty),
                  JTerm.lit (JLit.int 0),
                  JTerm.prop (JTerm.var ⟨cnt + 1, false⟩ (JTy.array ty))
                    (JProp.raw "length") JTy.i32] []] []) = some σ1 := by
        rw [execStmt, hcond]
        rfl
      rw [execStmts_cons _ _ _ _ _ eIF]
      have eS4 : execStmt copyFn σ1
          (JStmt.set (JLVal.idx (JLVal.var ⟨a, pa⟩)
            (JTerm.binop .sub (JTerm.var ⟨l, pl⟩ JTy.i32)
              (JTerm.lit (JLit.int 1)))) none x) = some σ2 := by
        rw [execStmt, execSet]
        simp only [hx σ1, evalTerm, evalLit, binopVal, evalBinOp, hσ1l,
          hwsub, writeLVal, readLVal, hσ1a, setIdx]
        rw [if_pos (by constructor <;> omega)]
      rw [execStmts_cons _ _ _ _ _ eS4]
      rfl
    · rw [hσ2, setVar_other _ _ _ _ (fun h => hal h.symm), hσ1l]
    · exact List.length_set arr0 len0.toNat vx
  · intro copyFn a l cnt pa pl ty x vx arr0 len0 σ hx hal ha hl hσa hσl
      hfull h1 hb
    obtain ⟨hlow, σ2, arr1, hexec, hσ2a, _, _, _, hσ2l⟩ :=
      push_grow_exec copyFn a l cnt pa pl ty x vx arr0 len0 σ hx hal ha hl
        hσa hσl hfull h1 hb
    exact ⟨_, _, σ2, arr1, hlow, hexec, hσ2l, hσ2a⟩

theorem array_ops_pair_shape_witness :
    lowerArrayMethod 99
        [JTerm.var ⟨1, false⟩ (JTy.array JTy.i32),
          JTerm.var ⟨2, false⟩ JTy.i32] .pop 5 =
      some ([JStmt.set (JLVal.var ⟨2, false⟩) (some .sub)
          (JTerm.lit (JLit.int 1))],
        [JTerm.index (JTerm.var ⟨1, false⟩ (JTy.array JTy.i32))
          (JTerm.var ⟨2, false⟩ JTy.i32) JTy.i32], 5) :=
  (array_ops_pair_shape.2.2.1 99 5 1 2 false false JTy.i32 [.i32 3] 1
      (fun k => if k = 1 then some (.arr [.i32 3])
        else if k = 2 then some (.i32 1) else none)
      (by decide) rfl rfl (by decide) (by decide) (by decide)).1
